import Mathlib

/-!
# Stepper motor control (ATmega32): motor sequencer and LCD driver

A shallow embedding of `src/src/main.c` and `src/src/lcd.c` in the configuration
selected by `src/include/lcd.h` (`DATA_BITS_MODE == 4`, `LOWER_PORT_PINS`).

* 8-bit registers and `uint8` variables are natural numbers below 256; every
  store truncates with `% 256`.  `uint16_t` values are truncated with `% 65536`.
* The I/O registers and the globals of both translation units live in one
  `State`; every store to an I/O register is appended to `State.trace`.
* `LCD_sendCommand` and `LCD_displayCharacter` additionally log one event at
  entry (`Event.command`, `Event.character`), so that the sequence of bus
  transactions of a caller can be read off the trace.
* Loops whose termination depends on data (`LCD_displayString`) or on the
  timer interrupt (`delay_ms`) take a `fuel` argument and return `none` when it
  runs out.  An array read outside the array (undefined behaviour in C) is
  `none` as well.
* The edge handlers `INT0_vect` and `INT1_vect` run between two iterations of
  the main loop (`Reachable`); `loopBodyIrq` also serves them inside an
  iteration, between two reads of the volatile flags.
-/

namespace Stepper

/-! ## Registers, events, machine state -/

/-- The I/O registers written by the modelled code. -/
inductive Reg
  | PORTA | DDRA | PORTB | DDRB | PORTC | DDRC
  deriving DecidableEq, Repr

/-- Observable events, in program order. -/
inductive Event
  | write (r : Reg) (v : Nat)
  | delay (ms : Nat)
  | command (c : Nat)
  | character (c : Nat)
  deriving DecidableEq, Repr

/-- Registers, the globals of `main.c`, the local `stepIndex` of `main`, the two
statics of `updateLCD`, and the event trace. -/
structure State where
  PORTA : Nat
  DDRA : Nat
  PORTB : Nat
  DDRB : Nat
  PORTC : Nat
  DDRC : Nat
  MotorDirection : Nat
  StepMode : Nat
  timer0_ticks : Nat
  stepIndex : Nat
  prevDirection : Nat
  prevMode : Nat
  trace : List Event
  deriving DecidableEq, Repr

/-! ## Constants of `main.c`, `lcd.h`, `micro_config.h` -/

def HALF_WAVE_STEPS : Nat := 8
def FULL_WAVE_STEPS : Nat := 4
def CW : Nat := 1
def CCW : Nat := 0
def FULL_WAVE_motor_steps : List Nat := [12, 6, 3, 9]
def HALF_WAVE_motor_steps : List Nat := [12, 4, 6, 2, 3, 1, 9, 8]
def F_CPU : Nat := 1000000

/-- Bit number of pin PB0 in the ATmega32 device header (`avr/io.h`). -/
def PB0 : Nat := 0
/-- Bit number of pin PB1 in the ATmega32 device header (`avr/io.h`). -/
def PB1 : Nat := 1
/-- Bit number of pin PB2 in the ATmega32 device header (`avr/io.h`). -/
def PB2 : Nat := 2
def RS : Nat := PB0
def RW : Nat := PB1
def E : Nat := PB2
def LCD_CTRL_PORT : Reg := Reg.PORTB
def LCD_CTRL_PORT_DIR : Reg := Reg.DDRB
def LCD_DATA_PORT : Reg := Reg.PORTA
def LCD_DATA_PORT_DIR : Reg := Reg.DDRA

def TWO_LINE_4_BIT_MODE : Nat := 0x28
def FOUR_BITS_DATA_MODE : Nat := 0x02
def DISPLAY_ON_CURSOR_BLINKING : Nat := 0x0F
def CLEAR_DISPLAY : Nat := 0x01
def SET_DDRAM_ADDRESS : Nat := 0x80

/-! ## Register access and `common_macros.h` -/

def readReg (r : Reg) (s : State) : Nat :=
  match r with
  | Reg.PORTA => s.PORTA
  | Reg.DDRA => s.DDRA
  | Reg.PORTB => s.PORTB
  | Reg.DDRB => s.DDRB
  | Reg.PORTC => s.PORTC
  | Reg.DDRC => s.DDRC

/-- Store the low eight bits of `v` into `r` and log the store. -/
def writeReg (r : Reg) (v : Nat) (s : State) : State :=
  let t := s.trace ++ [Event.write r (v % 256)]
  match r with
  | Reg.PORTA => { s with PORTA := v % 256, trace := t }
  | Reg.DDRA => { s with DDRA := v % 256, trace := t }
  | Reg.PORTB => { s with PORTB := v % 256, trace := t }
  | Reg.DDRB => { s with DDRB := v % 256, trace := t }
  | Reg.PORTC => { s with PORTC := v % 256, trace := t }
  | Reg.DDRC => { s with DDRC := v % 256, trace := t }

/-- Macro `SET_BIT(REG,BIT)`, defined as `(REG|=(1<<BIT))`. -/
def SET_BIT (r : Reg) (bit : Nat) (s : State) : State :=
  writeReg r (readReg r s ||| (1 <<< bit)) s

/-- Macro `CLEAR_BIT(REG,BIT)`, defined as `(REG&=(~(1<<BIT)))`; the complement is
taken in the 16-bit `int` of the target. -/
def CLEAR_BIT (r : Reg) (bit : Nat) (s : State) : State :=
  writeReg r (readReg r s &&& (0xFFFF ^^^ (1 <<< bit))) s

/-- Library call `_delay_ms(ms)` of `util/delay.h`: only logged. -/
def _delay_ms (ms : Nat) (s : State) : State :=
  { s with trace := s.trace ++ [Event.delay ms] }

/-- Log an event. -/
def logEvent (e : Event) (s : State) : State :=
  { s with trace := s.trace ++ [e] }

/-! ## `lcd.c` (4-bit mode, lower port pins) -/

def LCD_sendCommand (command : Nat) (s : State) : State :=
  let s := logEvent (Event.command command) s
  let s := CLEAR_BIT LCD_CTRL_PORT RS s
  let s := CLEAR_BIT LCD_CTRL_PORT RW s
  let s := _delay_ms 1 s
  let s := SET_BIT LCD_CTRL_PORT E s
  let s := _delay_ms 1 s
  let s := writeReg LCD_DATA_PORT
    ((readReg LCD_DATA_PORT s &&& 0xF0) ||| ((command &&& 0xF0) >>> 4)) s
  let s := _delay_ms 1 s
  let s := CLEAR_BIT LCD_CTRL_PORT E s
  let s := _delay_ms 1 s
  let s := SET_BIT LCD_CTRL_PORT E s
  let s := _delay_ms 1 s
  let s := writeReg LCD_DATA_PORT
    ((readReg LCD_DATA_PORT s &&& 0xF0) ||| (command &&& 0x0F)) s
  let s := _delay_ms 1 s
  let s := CLEAR_BIT LCD_CTRL_PORT E s
  _delay_ms 1 s

def LCD_displayCharacter (data : Nat) (s : State) : State :=
  let s := logEvent (Event.character data) s
  let s := SET_BIT LCD_CTRL_PORT RS s
  let s := CLEAR_BIT LCD_CTRL_PORT RW s
  let s := _delay_ms 1 s
  let s := SET_BIT LCD_CTRL_PORT E s
  let s := _delay_ms 1 s
  let s := writeReg LCD_DATA_PORT
    ((readReg LCD_DATA_PORT s &&& 0xF0) ||| ((data &&& 0xF0) >>> 4)) s
  let s := _delay_ms 1 s
  let s := CLEAR_BIT LCD_CTRL_PORT E s
  let s := _delay_ms 1 s
  let s := SET_BIT LCD_CTRL_PORT E s
  let s := _delay_ms 1 s
  let s := writeReg LCD_DATA_PORT
    ((readReg LCD_DATA_PORT s &&& 0xF0) ||| (data &&& 0x0F)) s
  let s := _delay_ms 1 s
  let s := CLEAR_BIT LCD_CTRL_PORT E s
  _delay_ms 1 s

def LCD_init (s : State) : State :=
  let s := writeReg LCD_CTRL_PORT_DIR
    (readReg LCD_CTRL_PORT_DIR s ||| ((1 <<< RS) ||| (1 <<< RW) ||| (1 <<< E))) s
  let s := SET_BIT LCD_DATA_PORT 0x0F s
  let s := LCD_sendCommand FOUR_BITS_DATA_MODE s
  let s := LCD_sendCommand TWO_LINE_4_BIT_MODE s
  let s := LCD_sendCommand DISPLAY_ON_CURSOR_BLINKING s
  LCD_sendCommand CLEAR_DISPLAY s

/-- The loop of `LCD_displayString`: `Str` is the memory from the pointer on,
`i` the `uint8` counter.  Reading past the end of `Str` gives `none`. -/
def LCD_displayString_loop (Str : List Nat) : Nat → Nat → State → Option State
  | 0, _, _ => none
  | fuel + 1, i, s =>
    match Str.get? i with
    | none => none
    | some c =>
      if c ≠ 0 then
        LCD_displayString_loop Str fuel ((i + 1) % 256) (LCD_displayCharacter c s)
      else some s

def LCD_displayString (Str : List Nat) (fuel : Nat) (s : State) : Option State :=
  LCD_displayString_loop Str fuel 0 s

/-- The `switch` of `LCD_goToRowColumn`: `Address` stays uninitialised (`none`)
for a row outside 0..3. -/
def LCD_goToRowColumn_Address (row col : Nat) : Option Nat :=
  match row with
  | 0 => some (col % 256)
  | 1 => some ((col + 0x40) % 256)
  | 2 => some ((col + 0x10) % 256)
  | 3 => some ((col + 0x50) % 256)
  | _ => none

def LCD_goToRowColumn (row col : Nat) (s : State) : Option State :=
  match LCD_goToRowColumn_Address row col with
  | none => none
  | some Address => some (LCD_sendCommand ((SET_DDRAM_ADDRESS ||| Address) % 256) s)

def LCD_displayStringRowColum (row col : Nat) (Str : List Nat) (fuel : Nat) (s : State) :
    Option State :=
  match LCD_goToRowColumn row col s with
  | none => none
  | some s => LCD_displayString Str fuel s

def LCD_clearScreen (s : State) : State :=
  LCD_sendCommand CLEAR_DISPLAY s

/-! ## `main.c` -/

/-- A C string literal: the character codes followed by the terminator. -/
def cstr (str : String) : List Nat :=
  str.toList.map Char.toNat ++ [0]

/-- The threshold computed by `delay_ms`: the product is formed in the 32-bit
`unsigned long` of `F_CPU`, the quotient is stored in a `uint16_t`. -/
def delay_ms_ticks (milliseconds : Nat) : Nat :=
  (milliseconds * (F_CPU / 1000) % 2 ^ 32 / 256) % 2 ^ 16

def TIMER0_OVF_vect (s : State) : State :=
  { s with timer0_ticks := (s.timer0_ticks + 1) % 65536 }

/-- The busy-wait `while (timer0_ticks < ticks);`, at the granularity of timer
overflows: each unit of fuel spent on a true loop condition is one firing of
`TIMER0_OVF_vect`. -/
def delay_ms_wait (ticks : Nat) : Nat → State → Option State
  | 0, _ => none
  | fuel + 1, s =>
    if s.timer0_ticks < ticks then delay_ms_wait ticks fuel (TIMER0_OVF_vect s)
    else some s

def delay_ms (milliseconds : Nat) (fuel : Nat) (s : State) : Option State :=
  let ticks := delay_ms_ticks milliseconds
  let s := { s with timer0_ticks := 0 }
  delay_ms_wait ticks fuel s

def INT0_vect (s : State) : State :=
  { s with MotorDirection := if s.MotorDirection = CW then CCW else CW }

def INT1_vect (s : State) : State :=
  { s with StepMode := if s.StepMode = 0 then 1 else 0 }

def updateLCD (direction mode : Nat) (fuel : Nat) (s : State) : Option State :=
  if direction ≠ s.prevDirection ∨ mode ≠ s.prevMode then
    let s := LCD_clearScreen s
    (LCD_goToRowColumn 0 0 s).bind fun s =>
    (LCD_displayString (cstr "Dir:") fuel s).bind fun s =>
    (LCD_displayString (if direction = CW then cstr "CW " else cstr "CCW") fuel s).bind fun s =>
    (LCD_goToRowColumn 1 0 s).bind fun s =>
    (LCD_displayString (cstr "Mode:") fuel s).bind fun s =>
    (LCD_displayString (if mode = 0 then cstr "Full" else cstr "Half") fuel s).bind fun s =>
    some { s with prevDirection := direction, prevMode := mode }
  else some s

/-- The table selected by `StepMode` (line 149). -/
def sequence (s : State) : List Nat :=
  if s.StepMode = 0 then FULL_WAVE_motor_steps else HALF_WAVE_motor_steps

/-- The table length selected by `StepMode` (line 150). -/
def steps (s : State) : Nat :=
  if s.StepMode = 0 then FULL_WAVE_STEPS else HALF_WAVE_STEPS

/-- Lines 149-158 of `main`: select the table, write the motor port, move
`stepIndex`.  `none` when `sequence[stepIndex]` is outside the selected table. -/
def stepMotor (s : State) : Option State :=
  match (sequence s).get? s.stepIndex with
  | none => none
  | some v =>
    let n := steps s
    let s := writeReg Reg.PORTC v s
    if s.MotorDirection = CW then
      some { s with stepIndex := (s.stepIndex + 1) % n % 256 }
    else
      some { s with stepIndex := (if s.stepIndex = 0 then n - 1 else s.stepIndex - 1) % 256 }

/-- One iteration of `while (1)` in `main` (lines 149-161). -/
def loopBody (fuel : Nat) (s : State) : Option State :=
  (stepMotor s).bind fun s =>
  (updateLCD s.MotorDirection s.StepMode fuel s).bind fun s =>
  delay_ms 500 fuel s

/-- The machine before `main`: registers cleared, globals and statics at their
initialisers (`(uint8)-1` is 255). -/
def resetState : State :=
  { PORTA := 0, DDRA := 0, PORTB := 0, DDRB := 0, PORTC := 0, DDRC := 0,
    MotorDirection := CW, StepMode := 0, timer0_ticks := 0, stepIndex := 0,
    prevDirection := 255, prevMode := 255, trace := [] }

/-- Lines 141-146 of `main`.  `INT_int` and `timer0_init` only touch registers
outside `State`. -/
def main_init (s : State) : State :=
  let s := writeReg Reg.DDRC 0xFF s
  let s := LCD_init s
  { s with stepIndex := 0 }

/-- The state in which `main` enters its loop. -/
def startup : State := main_init resetState

/-- Run `k` iterations of the main loop with no interrupt in between. -/
def runLoop (fuel : Nat) : Nat → State → Option State
  | 0, s => some s
  | k + 1, s => (loopBody fuel s).bind (runLoop fuel k)

/-- What can happen between two iterations: an edge on INT0 or on INT1. -/
inductive Toggle
  | direction
  | mode
  deriving DecidableEq, Repr

def Toggle.fire : Toggle → State → State
  | Toggle.direction, s => INT0_vect s
  | Toggle.mode, s => INT1_vect s

/-- States reachable from `startup` by loop iterations and toggles between them. -/
inductive Reachable : State → Prop
  | start : Reachable startup
  | iteration {s s2 : State} (fuel : Nat) :
      Reachable s → loopBody fuel s = some s2 → Reachable s2
  | toggle {s : State} (t : Toggle) : Reachable s → Reachable (t.fire s)

/-! ## Projections of the trace -/

/-- The values stored to the motor port, in order. -/
def motorWrites : List Event → List Nat
  | [] => []
  | Event.write Reg.PORTC v :: es => v :: motorWrites es
  | _ :: es => motorWrites es

/-- The values stored to the LCD data port, in order. -/
def dataWrites : List Event → List Nat
  | [] => []
  | Event.write Reg.PORTA v :: es => v :: dataWrites es
  | _ :: es => dataWrites es

/-- The LCD transactions (commands and characters), in order. -/
def transactions : List Event → List Event
  | [] => []
  | Event.command c :: es => Event.command c :: transactions es
  | Event.character c :: es => Event.character c :: transactions es
  | _ :: es => transactions es

/-- The character transactions of a text. -/
def text (str : String) : List Event :=
  str.toList.map fun c => Event.character c.toNat

/-! ## Auxiliary definitions used to state the theorems -/

/-- The events of one `LCD_sendCommand(command)` started with control port `b`
and data port `a`. -/
def commandEvents (command a b : Nat) : List Event :=
  let b1 := (b &&& (0xFFFF ^^^ (1 <<< RS))) % 256
  let b2 := (b1 &&& (0xFFFF ^^^ (1 <<< RW))) % 256
  let b3 := (b2 ||| (1 <<< E)) % 256
  let a1 := ((a &&& 0xF0) ||| ((command &&& 0xF0) >>> 4)) % 256
  let b4 := (b3 &&& (0xFFFF ^^^ (1 <<< E))) % 256
  let b5 := (b4 ||| (1 <<< E)) % 256
  let a2 := ((a1 &&& 0xF0) ||| (command &&& 0x0F)) % 256
  let b6 := (b5 &&& (0xFFFF ^^^ (1 <<< E))) % 256
  [Event.command command, Event.write Reg.PORTB b1, Event.write Reg.PORTB b2, Event.delay 1,
   Event.write Reg.PORTB b3, Event.delay 1, Event.write Reg.PORTA a1, Event.delay 1,
   Event.write Reg.PORTB b4, Event.delay 1, Event.write Reg.PORTB b5, Event.delay 1,
   Event.write Reg.PORTA a2, Event.delay 1, Event.write Reg.PORTB b6, Event.delay 1]

/-- The events of one `LCD_displayCharacter(data)` started with control port `b`
and data port `a`. -/
def characterEvents (data a b : Nat) : List Event :=
  let b1 := (b ||| (1 <<< RS)) % 256
  let b2 := (b1 &&& (0xFFFF ^^^ (1 <<< RW))) % 256
  let b3 := (b2 ||| (1 <<< E)) % 256
  let a1 := ((a &&& 0xF0) ||| ((data &&& 0xF0) >>> 4)) % 256
  let b4 := (b3 &&& (0xFFFF ^^^ (1 <<< E))) % 256
  let b5 := (b4 ||| (1 <<< E)) % 256
  let a2 := ((a1 &&& 0xF0) ||| (data &&& 0x0F)) % 256
  let b6 := (b5 &&& (0xFFFF ^^^ (1 <<< E))) % 256
  [Event.character data, Event.write Reg.PORTB b1, Event.write Reg.PORTB b2, Event.delay 1,
   Event.write Reg.PORTB b3, Event.delay 1, Event.write Reg.PORTA a1, Event.delay 1,
   Event.write Reg.PORTB b4, Event.delay 1, Event.write Reg.PORTB b5, Event.delay 1,
   Event.write Reg.PORTA a2, Event.delay 1, Event.write Reg.PORTB b6, Event.delay 1]

/-- The part of the state that the LCD driver never touches. -/
def control (s : State) : Nat × Nat × Nat × Nat × Nat × Nat × Nat :=
  (s.MotorDirection, s.StepMode, s.timer0_ticks, s.stepIndex, s.prevDirection, s.prevMode,
    s.PORTC)

/-- Display the characters of `cs` one after the other. -/
def displayAll (cs : List Nat) (s : State) : State :=
  cs.foldl (fun s c => LCD_displayCharacter c s) s

/-- The text of the direction field. -/
def dirText (direction : Nat) : List Nat :=
  if direction = CW then [67, 87, 32] else [67, 67, 87]

/-- The text of the mode field. -/
def modeText (mode : Nat) : List Nat :=
  if mode = 0 then [70, 117, 108, 108] else [72, 97, 108, 102]

/-- The LCD traffic of a redraw. -/
def render (direction mode : Nat) (s : State) : State :=
  displayAll (modeText mode) (displayAll [77, 111, 100, 101, 58]
    (LCD_sendCommand 0xC0 (displayAll (dirText direction) (displayAll [68, 105, 114, 58]
      (LCD_sendCommand 0x80 (LCD_sendCommand 0x01 s))))))

/-- What the motor sequencer owns or reads: the two flags, the index, the motor
port and the history of motor-port writes. -/
def motorView (s : State) : Nat × Nat × Nat × Nat × List Nat :=
  (s.MotorDirection, s.StepMode, s.stepIndex, s.PORTC, motorWrites s.trace)

/-- The state of `LCD_init` after its two stores, before the first command. -/
def LCD_init_stores (s : State) : State :=
  SET_BIT LCD_DATA_PORT 0x0F (writeReg LCD_CTRL_PORT_DIR
    (readReg LCD_CTRL_PORT_DIR s ||| ((1 <<< RS) ||| (1 <<< RW) ||| (1 <<< E))) s)

/-- Consecutive calls `updateLCD(direction, mode)`, `n` of them. -/
def updateLCD_repeat (direction mode fuel : Nat) : Nat → State → Option State
  | 0, s => some s
  | n + 1, s => (updateLCD direction mode fuel s).bind (updateLCD_repeat direction mode fuel n)

/-- The index update of lines 154-158 of `main`, on the values read there. -/
def nextStepIndex (direction n stepIndex : Nat) : Nat :=
  if direction = CW then (stepIndex + 1) % n % 256
  else (if stepIndex = 0 then n - 1 else stepIndex - 1) % 256

/-- The strobe level driven by a value of the control port. -/
def strobeHigh (v : Nat) : Bool := v.testBit E

/-- Follow the strobe line through the events of one call.  The arguments after
the list are the current strobe level, whether the last data-port store still
waits for its falling edge, and the number of falling edges so far.  A data-port
store while the strobe is low, or while the previous one still waits, gives
`none`. -/
def strobeWalk : List Event → Bool → Bool → Nat → Option (Bool × Bool × Nat)
  | [], level, waiting, edges => some (level, waiting, edges)
  | Event.write Reg.PORTB v :: es, level, waiting, edges =>
    if level && !strobeHigh v then strobeWalk es false false (edges + 1)
    else strobeWalk es (strobeHigh v) waiting edges
  | Event.write Reg.PORTA _ :: es, level, waiting, edges =>
    if level && !waiting then strobeWalk es level true edges else none
  | _ :: es, level, waiting, edges => strobeWalk es level waiting edges

/-- The register stores of a trace, in order. -/
def regWrites : List Event → List (Reg × Nat)
  | [] => []
  | Event.write r v :: es => (r, v) :: regWrites es
  | _ :: es => regWrites es

/-- The values stored to the LCD control port, in order. -/
def ctrlWrites : List Event → List Nat
  | [] => []
  | Event.write Reg.PORTB v :: es => v :: ctrlWrites es
  | _ :: es => ctrlWrites es

/-- A register store with the register-select bit of a control-port value
overwritten by 1, so that two stores that differ in that bit only become equal. -/
def ignoreRS : Reg × Nat → Reg × Nat
  | (Reg.PORTB, v) => (Reg.PORTB, v ||| (1 <<< RS))
  | w => w

/-- The data port after a transfer of `byte` that found it at `a`. -/
def dataAfterTransfer (byte a : Nat) : Nat :=
  (((((a &&& 0xF0) ||| ((byte &&& 0xF0) >>> 4)) % 256) &&& 0xF0) ||| (byte &&& 0x0F)) % 256

/-- The control port after the strobe pulses of a transfer, from its value `b2`
after the stores to RS and RW. -/
def ctrlAfterPulses (b2 : Nat) : Nat :=
  ((((((((b2 ||| (1 <<< E)) % 256) &&& (0xFFFF ^^^ (1 <<< E))) % 256) ||| (1 <<< E)) % 256)
    &&& (0xFFFF ^^^ (1 <<< E))) % 256)

/-- The control-port bits that belong to no LCD control line. -/
def otherCtrlBits : Nat := 0xFF ^^^ ((1 <<< RS) ||| (1 <<< RW) ||| (1 <<< E))

/-- Edge interrupts served inside one iteration of the main loop, at the three
places that lie between two reads of a shared flag: between the reads of
`StepMode` on lines 149 and 150, between line 150 and the read of
`MotorDirection` on line 154, and between line 154 and the reads of both flags
for the call on line 160.  Each handler runs to completion; the flags are single
bytes, so a read sees the value before or after a handler, never a mixture. -/
structure MidIrq where
  afterSequence : List Toggle
  afterSteps : List Toggle
  afterTest : List Toggle
  deriving DecidableEq, Repr

/-- Serve the handlers of `ts` one after the other. -/
def fireAll (ts : List Toggle) (s : State) : State :=
  ts.foldl (fun s t => t.fire s) s

/-- One iteration of `while (1)` in `main` (lines 149-161) with the interrupts of
`irq` served inside it.  Every occurrence of `StepMode` and `MotorDirection` in
the source is a read of the volatile global at that point. -/
def loopBodyIrq (irq : MidIrq) (fuel : Nat) (s : State) : Option State :=
  let table := sequence s
  let s := fireAll irq.afterSequence s
  let n := steps s
  match table.get? s.stepIndex with
  | none => none
  | some v =>
    let s := writeReg Reg.PORTC v s
    let s := fireAll irq.afterSteps s
    let s := { s with stepIndex := nextStepIndex s.MotorDirection n s.stepIndex }
    let s := fireAll irq.afterTest s
    (updateLCD s.MotorDirection s.StepMode fuel s).bind fun s => delay_ms 500 fuel s

/-- The values returned by the five flag reads of one iteration under `irq`:
`StepMode` on lines 149, 150 and 160, `MotorDirection` on lines 154 and 160. -/
def flagReads (irq : MidIrq) (s : State) : (Nat × Nat × Nat) × (Nat × Nat) :=
  let m149 := s.StepMode
  let s := fireAll irq.afterSequence s
  let m150 := s.StepMode
  let s := fireAll irq.afterSteps s
  let d154 := s.MotorDirection
  let s := fireAll irq.afterTest s
  ((m149, m150, s.StepMode), (d154, s.MotorDirection))

/-- The effect of a handler on the pair (`MotorDirection`, `StepMode`). -/
def Toggle.onFlags : Toggle → Nat × Nat → Nat × Nat
  | Toggle.direction, (d, m) => (if d = CW then CCW else CW, m)
  | Toggle.mode, (d, m) => (d, if m = 0 then 1 else 0)

/-- The pair (`MotorDirection`, `StepMode`) after the handlers of `ts`. -/
def flagsAfter (ts : List Toggle) (f : Nat × Nat) : Nat × Nat :=
  ts.foldl (fun f t => t.onFlags f) f

/-! ## Lemmas on the trace projections -/

theorem motorWrites_append (a b : List Event) :
    motorWrites (a ++ b) = motorWrites a ++ motorWrites b := by
  induction a with
  | nil => rfl
  | cons e es ih =>
    cases e with
    | write r v => cases r <;> simp [motorWrites, ih]
    | delay ms => simp [motorWrites, ih]
    | command c => simp [motorWrites, ih]
    | character c => simp [motorWrites, ih]

theorem dataWrites_append (a b : List Event) :
    dataWrites (a ++ b) = dataWrites a ++ dataWrites b := by
  induction a with
  | nil => rfl
  | cons e es ih =>
    cases e with
    | write r v => cases r <;> simp [dataWrites, ih]
    | delay ms => simp [dataWrites, ih]
    | command c => simp [dataWrites, ih]
    | character c => simp [dataWrites, ih]

theorem transactions_append (a b : List Event) :
    transactions (a ++ b) = transactions a ++ transactions b := by
  induction a with
  | nil => rfl
  | cons e es ih =>
    cases e with
    | write r v => simp [transactions, ih]
    | delay ms => simp [transactions, ih]
    | command c => simp [transactions, ih]
    | character c => simp [transactions, ih]

/-! ## What one LCD transaction does to the state -/

theorem LCD_sendCommand_trace (c : Nat) (s : State) :
    (LCD_sendCommand c s).trace = s.trace ++ commandEvents c s.PORTA s.PORTB := by
  simp [LCD_sendCommand, commandEvents, logEvent, CLEAR_BIT, SET_BIT, _delay_ms, writeReg,
    readReg, LCD_CTRL_PORT, LCD_DATA_PORT]

theorem LCD_displayCharacter_trace (c : Nat) (s : State) :
    (LCD_displayCharacter c s).trace = s.trace ++ characterEvents c s.PORTA s.PORTB := by
  simp [LCD_displayCharacter, characterEvents, logEvent, CLEAR_BIT, SET_BIT, _delay_ms, writeReg,
    readReg, LCD_CTRL_PORT, LCD_DATA_PORT]

theorem transactions_commandEvents (c a b : Nat) :
    transactions (commandEvents c a b) = [Event.command c] := by
  simp [commandEvents, transactions]

theorem transactions_characterEvents (c a b : Nat) :
    transactions (characterEvents c a b) = [Event.character c] := by
  simp [characterEvents, transactions]

theorem LCD_sendCommand_control (c : Nat) (s : State) :
    control (LCD_sendCommand c s) = control s := by
  simp [LCD_sendCommand, control, logEvent, CLEAR_BIT, SET_BIT, _delay_ms, writeReg,
    readReg, LCD_CTRL_PORT, LCD_DATA_PORT]

theorem LCD_displayCharacter_control (c : Nat) (s : State) :
    control (LCD_displayCharacter c s) = control s := by
  simp [LCD_displayCharacter, control, logEvent, CLEAR_BIT, SET_BIT, _delay_ms, writeReg,
    readReg, LCD_CTRL_PORT, LCD_DATA_PORT]

theorem displayAll_control (cs : List Nat) (s : State) :
    control (displayAll cs s) = control s := by
  induction cs generalizing s with
  | nil => rfl
  | cons c cs ih =>
    show control (displayAll cs (LCD_displayCharacter c s)) = control s
    rw [ih, LCD_displayCharacter_control]

theorem displayAll_transactions (cs : List Nat) (s : State) :
    transactions (displayAll cs s).trace
      = transactions s.trace ++ cs.map Event.character := by
  induction cs generalizing s with
  | nil => simp [displayAll]
  | cons c cs ih =>
    show transactions (displayAll cs (LCD_displayCharacter c s)).trace = _
    rw [ih, LCD_displayCharacter_trace, transactions_append, transactions_characterEvents]
    simp

theorem displayAll_motorWrites (cs : List Nat) (s : State) :
    motorWrites (displayAll cs s).trace = motorWrites s.trace := by
  induction cs generalizing s with
  | nil => simp [displayAll]
  | cons c cs ih =>
    show motorWrites (displayAll cs (LCD_displayCharacter c s)).trace = _
    rw [ih, LCD_displayCharacter_trace, motorWrites_append]
    simp [characterEvents, motorWrites]

theorem get?_append_cons (pre : List Nat) (c : Nat) (tl : List Nat) :
    (pre ++ c :: tl).get? pre.length = some c := by
  induction pre with
  | nil => rfl
  | cons x xs ih => simpa using ih

/-- The loop of `LCD_displayString`, started at offset `pre.length` of a string
whose remaining characters `cs` are non-zero and end below offset 256, displays
`cs` and stops at the terminator, given more fuel than characters. -/
theorem LCD_displayString_loop_eq (pre cs rest : List Nat) (fuel : Nat) (s : State)
    (hnz : ∀ c ∈ cs, c ≠ 0) (hlen : pre.length + cs.length < 256)
    (hfuel : cs.length < fuel) :
    LCD_displayString_loop (pre ++ cs ++ 0 :: rest) fuel pre.length s
      = some (displayAll cs s) := by
  induction cs generalizing pre fuel s with
  | nil =>
    obtain ⟨n, rfl⟩ : ∃ n, fuel = n + 1 := ⟨fuel - 1, by simp at hfuel; omega⟩
    have hget : (pre ++ [] ++ 0 :: rest).get? pre.length = some 0 := by
      rw [List.append_nil]; exact get?_append_cons pre 0 rest
    rw [LCD_displayString_loop, hget]
    rfl
  | cons c cs ih =>
    obtain ⟨n, rfl⟩ : ∃ n, fuel = n + 1 := ⟨fuel - 1, by omega⟩
    have hc : c ≠ 0 := hnz c (by simp)
    have hget : (pre ++ c :: cs ++ 0 :: rest).get? pre.length = some c := by
      rw [List.append_assoc]; exact get?_append_cons pre c (cs ++ 0 :: rest)
    simp only [List.length_cons] at hlen hfuel
    have hmod : (pre.length + 1) % 256 = (pre ++ [c]).length := by
      simp only [List.length_append, List.length_singleton]
      exact Nat.mod_eq_of_lt (by omega)
    have hstr : pre ++ c :: cs ++ 0 :: rest = (pre ++ [c]) ++ cs ++ 0 :: rest := by simp
    rw [LCD_displayString_loop, hget]
    simp only [hc, ne_eq, not_false_eq_true, if_true]
    rw [hmod, hstr, ih (pre ++ [c]) n (LCD_displayCharacter c s)
      (fun x hx => hnz x (by simp [hx]))
      (by simp only [List.length_append, List.length_singleton]; omega) (by omega)]
    rfl

theorem LCD_displayString_eq (cs : List Nat) (fuel : Nat) (s : State)
    (hnz : ∀ c ∈ cs, c ≠ 0) (hlen : cs.length < 256) (hfuel : cs.length < fuel) :
    LCD_displayString (cs ++ [0]) fuel s = some (displayAll cs s) := by
  have h := LCD_displayString_loop_eq [] cs [] fuel s hnz (by simpa using hlen) hfuel
  simpa [LCD_displayString] using h

/-! ## `delay_ms` -/

theorem delay_ms_ticks_lt (ms : Nat) : delay_ms_ticks ms < 65536 := by
  unfold delay_ms_ticks
  exact Nat.mod_lt _ (by norm_num)

theorem delay_ms_wait_eq (ticks : Nat) (hticks : ticks < 65536) (fuel : Nat) (s : State)
    (hle : s.timer0_ticks ≤ ticks) (hfuel : ticks - s.timer0_ticks < fuel) :
    delay_ms_wait ticks fuel s = some { s with timer0_ticks := ticks } := by
  induction fuel generalizing s with
  | zero => omega
  | succ n ih =>
    rw [delay_ms_wait]
    by_cases h : s.timer0_ticks < ticks
    · have hmod : (s.timer0_ticks + 1) % 65536 = s.timer0_ticks + 1 :=
        Nat.mod_eq_of_lt (by omega)
      rw [if_pos h, ih (TIMER0_OVF_vect s) (by simp [TIMER0_OVF_vect, hmod]; omega)
        (by simp [TIMER0_OVF_vect, hmod]; omega)]
      simp [TIMER0_OVF_vect]
    · have heq : s.timer0_ticks = ticks := by omega
      rw [if_neg h]
      cases s
      simp at heq
      simp [heq]

/-- With more fuel than the threshold, `delay_ms` returns, and the tick counter
then equals the threshold: it was reset and incremented that many times. -/
theorem delay_ms_eq (ms fuel : Nat) (s : State) (hfuel : delay_ms_ticks ms < fuel) :
    delay_ms ms fuel s = some { s with timer0_ticks := delay_ms_ticks ms } := by
  unfold delay_ms
  simp only
  rw [delay_ms_wait_eq (delay_ms_ticks ms) (delay_ms_ticks_lt ms) fuel _ (Nat.zero_le _)
    (by simpa using hfuel)]

/-! ## `updateLCD` -/

theorem updateLCD_same (direction mode fuel : Nat) (s : State)
    (hd : direction = s.prevDirection) (hm : mode = s.prevMode) :
    updateLCD direction mode fuel s = some s := by
  simp [updateLCD, hd, hm]

theorem updateLCD_changed (direction mode fuel : Nat) (s : State)
    (hne : direction ≠ s.prevDirection ∨ mode ≠ s.prevMode) (hfuel : 6 ≤ fuel) :
    updateLCD direction mode fuel s
      = some { render direction mode s with prevDirection := direction, prevMode := mode } := by
  have h1 : ∀ t, LCD_displayString (cstr "Dir:") fuel t = some (displayAll [68, 105, 114, 58] t) :=
    fun t => LCD_displayString_eq [68, 105, 114, 58] fuel t (by decide) (by decide)
      (by simp; omega)
  have h2 : ∀ t, LCD_displayString (if direction = CW then cstr "CW " else cstr "CCW") fuel t
      = some (displayAll (dirText direction) t) := by
    intro t
    unfold dirText
    split
    · exact LCD_displayString_eq [67, 87, 32] fuel t (by decide) (by decide) (by simp; omega)
    · exact LCD_displayString_eq [67, 67, 87] fuel t (by decide) (by decide) (by simp; omega)
  have h3 : ∀ t, LCD_displayString (cstr "Mode:") fuel t
      = some (displayAll [77, 111, 100, 101, 58] t) :=
    fun t => LCD_displayString_eq [77, 111, 100, 101, 58] fuel t (by decide) (by decide)
      (by simp; omega)
  have h4 : ∀ t, LCD_displayString (if mode = 0 then cstr "Full" else cstr "Half") fuel t
      = some (displayAll (modeText mode) t) := by
    intro t
    unfold modeText
    split
    · exact LCD_displayString_eq [70, 117, 108, 108] fuel t (by decide) (by decide)
        (by simp; omega)
    · exact LCD_displayString_eq [72, 97, 108, 102] fuel t (by decide) (by decide)
        (by simp; omega)
  have g0 : ∀ t, LCD_goToRowColumn 0 0 t = some (LCD_sendCommand 0x80 t) := fun t => rfl
  have g1 : ∀ t, LCD_goToRowColumn 1 0 t = some (LCD_sendCommand 0xC0 t) := fun t => rfl
  unfold updateLCD
  rw [if_pos hne]
  simp only [g0, g1, h1, h2, h3, h4, Option.bind, LCD_clearScreen, CLEAR_DISPLAY, render]

theorem render_control (direction mode : Nat) (s : State) :
    control (render direction mode s) = control s := by
  simp only [render, displayAll_control, LCD_sendCommand_control]

theorem render_transactions (direction mode : Nat) (s : State) :
    transactions (render direction mode s).trace
      = transactions s.trace ++
        ([Event.command 0x01, Event.command 0x80]
          ++ ([68, 105, 114, 58] ++ dirText direction).map Event.character
          ++ [Event.command 0xC0]
          ++ ([77, 111, 100, 101, 58] ++ modeText mode).map Event.character) := by
  simp only [render, displayAll_transactions, LCD_sendCommand_trace, transactions_append,
    transactions_commandEvents]
  simp

theorem render_motorWrites (direction mode : Nat) (s : State) :
    motorWrites (render direction mode s).trace = motorWrites s.trace := by
  simp only [render, displayAll_motorWrites, LCD_sendCommand_trace, motorWrites_append]
  simp [commandEvents, motorWrites]

/-! ## Nibble arithmetic -/

theorem low_nibble_of_or (a x : Nat) (hx : x < 16) : ((a &&& 0xF0 ||| x) % 256) % 16 = x := by
  rw [Nat.mod_mod_of_dvd _ (by norm_num : 16 ∣ 256)]
  apply Nat.eq_of_testBit_eq
  intro i
  rw [show (16 : Nat) = 2 ^ 4 from rfl, Nat.testBit_mod_two_pow]
  by_cases hi : i < 4
  · have h240 : Nat.testBit 240 i = false := by
      interval_cases i <;> decide
    simp [hi, h240]
  · have hxi : x.testBit i = false :=
      Nat.testBit_lt_two_pow (lt_of_lt_of_le hx (by
        calc 16 = 2 ^ 4 := rfl
          _ ≤ 2 ^ i := Nat.pow_le_pow_right (by norm_num) (by omega)))
    simp [hi, hxi]

theorem high_nibble_eq (b : Nat) (hb : b < 256) : (b &&& 0xF0) >>> 4 = b / 16 := by
  rw [show b / 16 = b >>> 4 from (Nat.shiftRight_eq_div_pow b 4).symm]
  apply Nat.eq_of_testBit_eq
  intro i
  rw [Nat.testBit_shiftRight, Nat.testBit_shiftRight, Nat.testBit_and]
  by_cases hi : i < 4
  · have h240 : Nat.testBit 240 (4 + i) = true := by
      interval_cases i <;> decide
    simp [h240]
  · have hbi : b.testBit (4 + i) = false :=
      Nat.testBit_lt_two_pow (lt_of_lt_of_le hb (by
        calc 256 = 2 ^ 8 := rfl
          _ ≤ 2 ^ (4 + i) := Nat.pow_le_pow_right (by norm_num) (by omega)))
    simp [hbi]

theorem low_nibble_eq (b : Nat) : b &&& 0x0F = b % 16 :=
  Nat.and_pow_two_sub_one_eq_mod b 4

theorem set_address_or_mod (y : Nat) :
    (SET_DDRAM_ADDRESS ||| y) % 256 = SET_DDRAM_ADDRESS ||| (y % 256) := by
  show (0x80 ||| y) % 256 = 0x80 ||| (y % 256)
  apply Nat.eq_of_testBit_eq
  intro i
  rw [show (256 : Nat) = 2 ^ 8 from rfl, Nat.testBit_mod_two_pow, Nat.testBit_or,
    Nat.testBit_or, Nat.testBit_mod_two_pow]
  by_cases hi : i < 8
  · simp [hi]
  · have h128 : Nat.testBit 0x80 i = false :=
      Nat.testBit_lt_two_pow (lt_of_lt_of_le (by decide : 0x80 < 2 ^ 8)
        (Nat.pow_le_pow_right (by norm_num) (by omega)))
    simp [hi, h128]

theorem low_bits_set (d i : Nat) (hi : i < 3) : ((d ||| 7) % 256).testBit i = true := by
  rw [show (256 : Nat) = 2 ^ 8 from rfl, Nat.testBit_mod_two_pow]
  have h7 : Nat.testBit 7 i = true := by interval_cases i <;> decide
  simp [h7]
  omega

/-! ## The motor side of the state is untouched by the display and the delay -/

theorem LCD_sendCommand_motorView (c : Nat) (s : State) :
    motorView (LCD_sendCommand c s) = motorView s := by
  have h := LCD_sendCommand_control c s
  simp only [control, Prod.mk.injEq] at h
  simp [motorView, h, LCD_sendCommand_trace, motorWrites_append, commandEvents, motorWrites]

theorem LCD_displayCharacter_motorView (c : Nat) (s : State) :
    motorView (LCD_displayCharacter c s) = motorView s := by
  have h := LCD_displayCharacter_control c s
  simp only [control, Prod.mk.injEq] at h
  simp [motorView, h, LCD_displayCharacter_trace, motorWrites_append, characterEvents,
    motorWrites]

theorem LCD_displayString_loop_motorView (Str : List Nat) (fuel i : Nat) (s s2 : State)
    (h : LCD_displayString_loop Str fuel i s = some s2) : motorView s2 = motorView s := by
  induction fuel generalizing i s with
  | zero => simp [LCD_displayString_loop] at h
  | succ n ih =>
    rw [LCD_displayString_loop] at h
    cases hget : Str.get? i with
    | none =>
      rw [hget] at h
      exact Option.noConfusion h
    | some c =>
      rw [hget] at h
      by_cases hc : c = 0
      · have h2 : some s = some s2 := by simpa [hc] using h
        rw [← Option.some.inj h2]
      · have h2 : LCD_displayString_loop Str n ((i + 1) % 256) (LCD_displayCharacter c s)
            = some s2 := by simpa [hc] using h
        rw [ih _ _ h2, LCD_displayCharacter_motorView]

theorem LCD_displayString_motorView (Str : List Nat) (fuel : Nat) (s s2 : State)
    (h : LCD_displayString Str fuel s = some s2) : motorView s2 = motorView s :=
  LCD_displayString_loop_motorView Str fuel 0 s s2 h

theorem LCD_goToRowColumn_motorView (row col : Nat) (s s2 : State)
    (h : LCD_goToRowColumn row col s = some s2) : motorView s2 = motorView s := by
  unfold LCD_goToRowColumn at h
  cases ha : LCD_goToRowColumn_Address row col with
  | none => simp [ha] at h
  | some a =>
    simp only [ha, Option.some.injEq] at h
    rw [← h, LCD_sendCommand_motorView]

/-- Whatever the fuel, a call of `updateLCD` that returns has left the motor
side alone and has recorded the pair it was given, or changed nothing. -/
theorem updateLCD_some (direction mode fuel : Nat) (s s2 : State)
    (h : updateLCD direction mode fuel s = some s2) :
    motorView s2 = motorView s ∧
      (s2 = s ∨ (s2.prevDirection = direction ∧ s2.prevMode = mode)) ∧
      ((direction = s.prevDirection ∧ mode = s.prevMode) → s2 = s) ∧
      ((direction ≠ s.prevDirection ∨ mode ≠ s.prevMode) →
        s2.prevDirection = direction ∧ s2.prevMode = mode) := by
  unfold updateLCD at h
  by_cases hne : direction ≠ s.prevDirection ∨ mode ≠ s.prevMode
  · rw [if_pos hne] at h
    simp only [Option.bind_eq_some] at h
    obtain ⟨a1, h1, a2, h2, a3, h3, a4, h4, a5, h5, a6, h6, h7⟩ := h
    have e1 := LCD_goToRowColumn_motorView _ _ _ _ h1
    have e2 := LCD_displayString_motorView _ _ _ _ h2
    have e3 := LCD_displayString_motorView _ _ _ _ h3
    have e4 := LCD_goToRowColumn_motorView _ _ _ _ h4
    have e5 := LCD_displayString_motorView _ _ _ _ h5
    have e6 := LCD_displayString_motorView _ _ _ _ h6
    have e0 : motorView (LCD_clearScreen s) = motorView s := LCD_sendCommand_motorView _ s
    have e : motorView a6 = motorView s := by
      rw [e6, e5, e4, e3, e2, e1, e0]
    simp only [Option.some.injEq] at h7
    subst h7
    refine ⟨?_, Or.inr ⟨rfl, rfl⟩, ?_, fun _ => ⟨rfl, rfl⟩⟩
    · simpa [motorView] using e
    · rintro ⟨hd, hm⟩
      rcases hne with h | h
      · exact absurd hd h
      · exact absurd hm h
  · rw [if_neg hne] at h
    simp only [Option.some.injEq] at h
    subst h
    refine ⟨rfl, Or.inl rfl, fun _ => rfl, fun h => absurd h hne⟩

/-- With fuel for the longest label, `updateLCD` returns. -/
theorem updateLCD_returns (direction mode fuel : Nat) (s : State) (hfuel : 6 ≤ fuel) :
    ∃ s2, updateLCD direction mode fuel s = some s2 := by
  by_cases hne : direction ≠ s.prevDirection ∨ mode ≠ s.prevMode
  · exact ⟨_, updateLCD_changed direction mode fuel s hne hfuel⟩
  · have hd : direction = s.prevDirection := by
      by_contra h
      exact hne (Or.inl h)
    have hm : mode = s.prevMode := by
      by_contra h
      exact hne (Or.inr h)
    exact ⟨s, updateLCD_same direction mode fuel s hd hm⟩

theorem delay_ms_wait_motorView (ticks fuel : Nat) (s s2 : State)
    (h : delay_ms_wait ticks fuel s = some s2) : motorView s2 = motorView s := by
  induction fuel generalizing s with
  | zero => simp [delay_ms_wait] at h
  | succ n ih =>
    rw [delay_ms_wait] at h
    by_cases ht : s.timer0_ticks < ticks
    · rw [if_pos ht] at h
      rw [ih _ h]
      rfl
    · rw [if_neg ht] at h
      simp only [Option.some.injEq] at h
      rw [h]

theorem delay_ms_motorView (ms fuel : Nat) (s s2 : State)
    (h : delay_ms ms fuel s = some s2) : motorView s2 = motorView s := by
  unfold delay_ms at h
  rw [delay_ms_wait_motorView _ _ _ _ h]
  rfl

/-! ## One iteration of the main loop -/

theorem delay_ms_ticks_500 : delay_ms_ticks 500 = 1953 := by
  norm_num [delay_ms_ticks, F_CPU]

theorem stepMotor_none (s : State) (h : (sequence s).get? s.stepIndex = none) :
    stepMotor s = none := by
  simp only [stepMotor, h]

theorem stepMotor_eq (s : State) (v : Nat) (h : (sequence s).get? s.stepIndex = some v) :
    ∃ s1, stepMotor s = some s1 ∧
      motorView s1 = (s.MotorDirection, s.StepMode,
        (if s.MotorDirection = CW then (s.stepIndex + 1) % steps s % 256
          else (if s.stepIndex = 0 then steps s - 1 else s.stepIndex - 1) % 256),
        v % 256, motorWrites s.trace ++ [v % 256]) := by
  simp only [stepMotor, h]
  by_cases hd : s.MotorDirection = CW
  · refine ⟨_, by simp only [writeReg, hd, if_true]; rfl, ?_⟩
    simp [motorView, writeReg, hd, steps, sequence, motorWrites_append, motorWrites]
  · refine ⟨_, by simp only [writeReg, hd, if_false]; rfl, ?_⟩
    simp [motorView, writeReg, hd, steps, sequence, motorWrites_append, motorWrites]

/-- An iteration that returns has performed the table read, and differs from the
result of lines 149-158 only on the display side and the tick counter. -/
theorem loopBody_some (fuel : Nat) (s s2 : State) (h : loopBody fuel s = some s2) :
    ∃ s1, stepMotor s = some s1 ∧ motorView s2 = motorView s1 := by
  unfold loopBody at h
  simp only [Option.bind_eq_some] at h
  obtain ⟨s1, h1, a, h2, h3⟩ := h
  refine ⟨s1, h1, ?_⟩
  rw [delay_ms_motorView _ _ _ _ h3, (updateLCD_some _ _ _ _ _ h2).1]

theorem loopBody_none (fuel : Nat) (s : State) (h : (sequence s).get? s.stepIndex = none) :
    loopBody fuel s = none := by
  simp [loopBody, stepMotor_none s h]

/-- With fuel for the 500 ms delay, an iteration whose table read is in bounds
returns; its effect on the motor side is that of lines 149-158. -/
theorem loopBody_step (fuel : Nat) (s : State) (v : Nat) (hfuel : 1954 ≤ fuel)
    (h : (sequence s).get? s.stepIndex = some v) :
    ∃ s2, loopBody fuel s = some s2 ∧
      motorView s2 = (s.MotorDirection, s.StepMode,
        (if s.MotorDirection = CW then (s.stepIndex + 1) % steps s % 256
          else (if s.stepIndex = 0 then steps s - 1 else s.stepIndex - 1) % 256),
        v % 256, motorWrites s.trace ++ [v % 256]) := by
  obtain ⟨s1, h1, hv1⟩ := stepMotor_eq s v h
  obtain ⟨a, ha⟩ := updateLCD_returns s1.MotorDirection s1.StepMode fuel s1 (by omega)
  have hd : delay_ms 500 fuel a = some { a with timer0_ticks := delay_ms_ticks 500 } :=
    delay_ms_eq 500 fuel a (by rw [delay_ms_ticks_500]; omega)
  have hl : loopBody fuel s = some { a with timer0_ticks := delay_ms_ticks 500 } := by
    simp [loopBody, h1, ha, hd]
  refine ⟨_, hl, ?_⟩
  obtain ⟨s1b, h1b, hvb⟩ := loopBody_some fuel s _ hl
  rw [h1] at h1b
  rw [hvb, ← Option.some.inj h1b, hv1]

/-- The table read of an iteration succeeds exactly below the table length. -/
theorem sequence_get?_of_lt (s : State) (h : s.stepIndex < steps s) :
    ∃ v, (sequence s).get? s.stepIndex = some v ∧ v < 16 := by
  unfold steps at h
  unfold sequence
  by_cases hm : s.StepMode = 0
  · simp only [hm, if_true, FULL_WAVE_STEPS] at h ⊢
    generalize s.stepIndex = i at h
    interval_cases i <;> simp [FULL_WAVE_motor_steps]
  · simp only [hm, if_false, HALF_WAVE_STEPS] at h ⊢
    generalize s.stepIndex = i at h
    interval_cases i <;> simp [HALF_WAVE_motor_steps]

theorem sequence_get?_of_ge (s : State) (h : steps s ≤ s.stepIndex) :
    (sequence s).get? s.stepIndex = none := by
  unfold steps at h
  unfold sequence
  by_cases hm : s.StepMode = 0
  · simp only [hm, if_true, FULL_WAVE_STEPS] at h ⊢
    simp [FULL_WAVE_motor_steps, h]
  · simp only [hm, if_false, HALF_WAVE_STEPS] at h ⊢
    simp [HALF_WAVE_motor_steps, h]

/-! ## Runs of the main loop and reachable states -/

theorem steps_eq (s : State) : steps s = 4 ∨ steps s = 8 := by
  unfold steps
  split
  · exact Or.inl rfl
  · exact Or.inr rfl

theorem steps_congr (s t : State) (h : t.StepMode = s.StepMode) : steps t = steps s := by
  simp only [steps, h]

theorem sequence_congr (s t : State) (h : t.StepMode = s.StepMode) :
    sequence t = sequence s := by
  simp only [sequence, h]

/-- An iteration that returns started with its index inside the selected table
and leaves an index inside that same table. -/
theorem loopBody_index (fuel : Nat) (s s2 : State) (h : loopBody fuel s = some s2) :
    s.stepIndex < steps s ∧ s2.stepIndex < steps s ∧
      s2.StepMode = s.StepMode ∧ s2.MotorDirection = s.MotorDirection := by
  obtain ⟨s1, h1, hv⟩ := loopBody_some fuel s s2 h
  have hlt : s.stepIndex < steps s := by
    by_contra hge
    rw [stepMotor_none s (sequence_get?_of_ge s (by omega))] at h1
    exact Option.noConfusion h1
  obtain ⟨v, hget, _⟩ := sequence_get?_of_lt s hlt
  obtain ⟨s1b, h1b, hvb⟩ := stepMotor_eq s v hget
  rw [h1] at h1b
  rw [← Option.some.inj h1b] at hvb
  rw [hvb] at hv
  simp only [motorView, Prod.mk.injEq] at hv
  obtain ⟨hd, hm, hi, _, _⟩ := hv
  refine ⟨hlt, ?_, hm, hd⟩
  rw [hi]
  rcases steps_eq s with hn | hn <;> rw [hn] at hlt ⊢ <;> split <;> try split
  all_goals omega

theorem Reachable_runLoop (fuel k : Nat) (s s2 : State) (hr : Reachable s)
    (h : runLoop fuel k s = some s2) : Reachable s2 := by
  induction k generalizing s with
  | zero =>
    simp only [runLoop, Option.some.injEq] at h
    rw [← h]
    exact hr
  | succ n ih =>
    simp only [runLoop, Option.bind_eq_some] at h
    obtain ⟨a, ha, h2⟩ := h
    exact ih a (Reachable.iteration fuel hr ha) h2

theorem startup_motorView : motorView startup = (CW, 0, 0, 0, []) := by
  simp only [startup, main_init, LCD_init, motorView, LCD_sendCommand_trace,
    motorWrites_append]
  have h : ∀ c (t : State), motorView (LCD_sendCommand c t) = motorView t :=
    LCD_sendCommand_motorView
  simp only [motorView, Prod.mk.injEq] at h
  simp [h, SET_BIT, writeReg, readReg, LCD_DATA_PORT, LCD_CTRL_PORT_DIR, resetState,
    motorWrites_append, motorWrites, commandEvents]

/-- In every reachable state the index is below 8 and both flags are 0 or 1. -/
theorem Reachable_bounds (s : State) (hr : Reachable s) :
    s.stepIndex < 8 ∧ s.StepMode ≤ 1 ∧ s.MotorDirection ≤ 1 := by
  induction hr with
  | start =>
    have h := startup_motorView
    simp only [motorView, Prod.mk.injEq] at h
    obtain ⟨hd, hm, hi, _, _⟩ := h
    rw [hd, hm, hi]
    decide
  | iteration fuel _ hl ih =>
    obtain ⟨_, h2, hm, hd⟩ := loopBody_index fuel _ _ hl
    rw [hm, hd]
    refine ⟨?_, ih.2.1, ih.2.2⟩
    rcases steps_eq _ with hn | hn <;> rw [hn] at h2 <;> omega
  | toggle t _ ih =>
    cases t with
    | direction =>
      refine ⟨ih.1, ih.2.1, ?_⟩
      show (if _ = CW then CCW else CW) ≤ 1
      split <;> decide
    | mode =>
      refine ⟨ih.1, ?_, ih.2.2⟩
      show (if _ = 0 then 1 else 0) ≤ 1
      split <;> decide

/-- Clockwise runs: `k` iterations without a toggle return, keep the flags, move
the index `k` places forward modulo the table length, and write the table
entries met on the way to the motor port. -/
theorem runLoop_CW (fuel k : Nat) (s : State) (hfuel : 1954 ≤ fuel)
    (hcw : s.MotorDirection = CW) (hi : s.stepIndex < steps s) :
    ∃ s2, runLoop fuel k s = some s2 ∧ s2.MotorDirection = CW ∧
      s2.StepMode = s.StepMode ∧ s2.stepIndex = (s.stepIndex + k) % steps s ∧
      motorWrites s2.trace = motorWrites s.trace ++
        (List.range k).map fun j => (sequence s).getD ((s.stepIndex + j) % steps s) 0 := by
  induction k generalizing s with
  | zero =>
    exact ⟨s, rfl, hcw, rfl, by simp [Nat.mod_eq_of_lt hi], by simp⟩
  | succ n ih =>
    obtain ⟨v, hget, hv16⟩ := sequence_get?_of_lt s hi
    obtain ⟨a, ha, hva⟩ := loopBody_step fuel s v hfuel hget
    simp only [motorView, Prod.mk.injEq, hcw, if_true] at hva
    obtain ⟨had, ham, hai, _, haw⟩ := hva
    have hstep : steps a = steps s := steps_congr s a ham
    have hseq : sequence a = sequence s := sequence_congr s a ham
    have hlt : (s.stepIndex + 1) % steps s < steps s :=
      Nat.mod_lt _ (by rcases steps_eq s with h | h <;> omega)
    have hai2 : a.stepIndex = (s.stepIndex + 1) % steps s := by
      rw [hai]
      exact Nat.mod_eq_of_lt (by rcases steps_eq s with h | h <;> omega)
    obtain ⟨s2, h2, h2d, h2m, h2i, h2w⟩ := ih a had (by rw [hstep, hai2]; exact hlt)
    refine ⟨s2, by simp [runLoop, ha, h2], h2d, by rw [h2m, ham], ?_, ?_⟩
    · rw [h2i, hstep, hai2, Nat.mod_add_mod, Nat.add_assoc, Nat.add_comm 1 n]
    · have hv : v % 256 = (sequence s).getD ((s.stepIndex + 0) % steps s) 0 := by
        rw [Nat.add_zero, Nat.mod_eq_of_lt hi, Nat.mod_eq_of_lt (by omega)]
        simp [List.getD, ← List.get?_eq_getElem?, hget]
      rw [h2w, haw, hv, hstep, hseq, hai2, List.range_succ_eq_map, List.map_cons,
        List.map_map, List.append_assoc]
      congr 1
      rw [List.singleton_append]
      congr 1
      apply List.map_congr_left
      intro j _
      simp only [Function.comp]
      congr 1
      rw [Nat.mod_add_mod, Nat.add_assoc, Nat.add_comm 1 j]

/-! ## C1 - C4: the motor sequencer -/

/-- C1: for both tables (`len = 4` when `StepMode` is Full, `len = 8` when it is
Half) and every `stepIndex < len`, one iteration of the main loop returns and
leaves `stepIndex = (i + 1) % len` when `MotorDirection` is `CW`, and `len - 1`
if `i = 0`, otherwise `i - 1`, when it is `CCW`. -/
theorem C1_stepIndex_transition (s : State) (fuel len : Nat) (hfuel : 1954 ≤ fuel)
    (hlen : (s.StepMode = 0 ∧ len = 4) ∨ (s.StepMode = 1 ∧ len = 8))
    (hi : s.stepIndex < len) :
    ∃ s2, loopBody fuel s = some s2 ∧
      (s.MotorDirection = CW → s2.stepIndex = (s.stepIndex + 1) % len) ∧
      (s.MotorDirection = CCW →
        s2.stepIndex = if s.stepIndex = 0 then len - 1 else s.stepIndex - 1) := by
  have hsteps : steps s = len := by
    rcases hlen with ⟨hm, hl⟩ | ⟨hm, hl⟩ <;> simp [steps, hm, hl, FULL_WAVE_STEPS,
      HALF_WAVE_STEPS]
  have hlen8 : len ≤ 8 := by rcases hlen with ⟨_, hl⟩ | ⟨_, hl⟩ <;> omega
  obtain ⟨v, hget, _⟩ := sequence_get?_of_lt s (by rw [hsteps]; exact hi)
  obtain ⟨s2, h2, hv⟩ := loopBody_step fuel s v hfuel hget
  simp only [motorView, Prod.mk.injEq] at hv
  obtain ⟨_, _, hidx, _, _⟩ := hv
  refine ⟨s2, h2, ?_, ?_⟩
  · intro hcw
    rw [hidx, if_pos hcw, hsteps]
    exact Nat.mod_eq_of_lt (lt_of_lt_of_le (Nat.mod_lt _ (by omega)) (by omega))
  · intro hccw
    have hne : ¬ s.MotorDirection = CW := by rw [hccw]; decide
    rw [hidx, if_neg hne, hsteps]
    apply Nat.mod_eq_of_lt
    split <;> omega

/-- C1 at a concrete state: Half mode, counter-clockwise, index 0. -/
theorem C1_stepIndex_transition_witness :
    ∃ s2, loopBody 2000 { resetState with StepMode := 1, MotorDirection := CCW } = some s2 ∧
      (({ resetState with StepMode := 1, MotorDirection := CCW } : State).MotorDirection = CW →
        s2.stepIndex
          = (({ resetState with StepMode := 1, MotorDirection := CCW } : State).stepIndex + 1)
            % 8) ∧
      (({ resetState with StepMode := 1, MotorDirection := CCW } : State).MotorDirection = CCW →
        s2.stepIndex
          = if ({ resetState with StepMode := 1, MotorDirection := CCW } : State).stepIndex = 0
            then 8 - 1
            else ({ resetState with StepMode := 1, MotorDirection := CCW } : State).stepIndex
              - 1) :=
  C1_stepIndex_transition { resetState with StepMode := 1, MotorDirection := CCW } 2000 8
    (by decide) (Or.inr ⟨rfl, rfl⟩) (by decide)

/-- The path to an index outside the full-step table: mode toggle, five
clockwise iterations in Half mode, mode toggle. -/
theorem half_run_then_full (fuel : Nat) (hfuel : 1954 ≤ fuel) :
    ∃ s1, runLoop fuel 5 (Toggle.fire Toggle.mode startup) = some s1 ∧ Reachable s1 ∧
      s1.StepMode = 1 ∧ s1.stepIndex = 5 := by
  have h0 := startup_motorView
  simp only [motorView, Prod.mk.injEq] at h0
  obtain ⟨hd, hm, hi, _, _⟩ := h0
  have hm1 : (Toggle.fire Toggle.mode startup).StepMode = 1 := by
    show (if startup.StepMode = 0 then 1 else 0) = 1
    rw [hm]
    rfl
  have hs : steps (Toggle.fire Toggle.mode startup) = 8 := by
    simp [steps, hm1, HALF_WAVE_STEPS]
  have hi1 : (Toggle.fire Toggle.mode startup).stepIndex = 0 := hi
  obtain ⟨s1, h1, _, h1m, h1i, _⟩ := runLoop_CW fuel 5 (Toggle.fire Toggle.mode startup) hfuel hd
    (by rw [hs, hi1]; decide)
  refine ⟨s1, h1, Reachable_runLoop fuel 5 _ s1 (Reachable.toggle Toggle.mode Reachable.start) h1,
    by rw [h1m, hm1], ?_⟩
  rw [h1i, hs, hi1]

/-- C2 fails on the code: after a mode toggle, five iterations and a second mode
toggle, the reachable state has `StepMode` Full and `stepIndex = 5`, outside the
4-entry table; the read `sequence[stepIndex]` of the next iteration is out of
bounds, for every fuel. -/
theorem C2_index_out_of_bounds :
    ∃ s1 s2, runLoop 2000 5 (Toggle.fire Toggle.mode startup) = some s1 ∧
      s2 = Toggle.fire Toggle.mode s1 ∧ Reachable s2 ∧
      s2.StepMode = 0 ∧ s2.stepIndex = 5 ∧ steps s2 = 4 ∧ ¬ s2.stepIndex < steps s2 ∧
      (sequence s2).get? s2.stepIndex = none ∧ ∀ fuel, loopBody fuel s2 = none := by
  obtain ⟨s1, h1, hr, hm, hi⟩ := half_run_then_full 2000 (by decide)
  have hm2 : (Toggle.fire Toggle.mode s1).StepMode = 0 := by
    show (if s1.StepMode = 0 then 1 else 0) = 0
    rw [hm]
    rfl
  have hi2 : (Toggle.fire Toggle.mode s1).stepIndex = 5 := hi
  have hs : steps (Toggle.fire Toggle.mode s1) = 4 := by
    simp [steps, hm2, FULL_WAVE_STEPS]
  have hnone : (sequence (Toggle.fire Toggle.mode s1)).get? (Toggle.fire Toggle.mode s1).stepIndex
      = none := sequence_get?_of_ge _ (by rw [hs, hi2]; decide)
  exact ⟨s1, _, h1, rfl, Reachable.toggle Toggle.mode hr, hm2, hi2, hs,
    by rw [hs, hi2]; decide, hnone, fun fuel => loopBody_none fuel _ hnone⟩

/-- C3: from `startup` (clockwise, Full, index 0) with no toggle, for every `k`
the run of `k` iterations returns and the next iteration, the `k`-th counting
from 0, writes `FULL_WAVE_motor_steps[k % 4]` to the motor port; the motor-port
writes of the first five iterations are 12, 6, 3, 9, 12. -/
theorem C3_full_wave_sequence (fuel k : Nat) (hfuel : 1954 ≤ fuel) :
    (∃ s s2, runLoop fuel k startup = some s ∧ loopBody fuel s = some s2 ∧
      some s2.PORTC = FULL_WAVE_motor_steps.get? (k % 4) ∧
      motorWrites s2.trace = motorWrites s.trace ++ [s2.PORTC]) ∧
    (∃ s5, runLoop fuel 5 startup = some s5 ∧ motorWrites s5.trace = [12, 6, 3, 9, 12]) := by
  have h0 := startup_motorView
  simp only [motorView, Prod.mk.injEq] at h0
  obtain ⟨hd, hm, hi, _, hw⟩ := h0
  have hs : steps startup = 4 := by simp [steps, hm, FULL_WAVE_STEPS]
  have hq : sequence startup = FULL_WAVE_motor_steps := by simp [sequence, hm]
  constructor
  · obtain ⟨s, h1, h1d, h1m, h1i, _⟩ := runLoop_CW fuel k startup hfuel hd
      (by rw [hs, hi]; decide)
    rw [hs, hi, Nat.zero_add] at h1i
    have hss : steps s = 4 := by rw [steps_congr startup s h1m, hs]
    have hsq : sequence s = FULL_WAVE_motor_steps := by
      rw [sequence_congr startup s h1m, hq]
    obtain ⟨v, hget, hv16⟩ := sequence_get?_of_lt s (by
      rw [hss, h1i]; exact Nat.mod_lt _ (by decide))
    obtain ⟨s2, h2, hv⟩ := loopBody_step fuel s v hfuel hget
    simp only [motorView, Prod.mk.injEq] at hv
    obtain ⟨_, _, _, hp, hmw⟩ := hv
    rw [Nat.mod_eq_of_lt (by omega : v < 256)] at hp hmw
    refine ⟨s, s2, h1, h2, ?_, by rw [hmw, hp]⟩
    rw [hp, ← hget, hsq, h1i]
  · obtain ⟨s5, h5, _, _, _, h5w⟩ := runLoop_CW fuel 5 startup hfuel hd
      (by rw [hs, hi]; decide)
    refine ⟨s5, h5, ?_⟩
    rw [h5w, hw, hs, hi, hq]
    decide

/-- C3 with fuel 2000, at the iteration after seven. -/
theorem C3_full_wave_sequence_witness :
    (∃ s s2, runLoop 2000 7 startup = some s ∧ loopBody 2000 s = some s2 ∧
      some s2.PORTC = FULL_WAVE_motor_steps.get? (7 % 4) ∧
      motorWrites s2.trace = motorWrites s.trace ++ [s2.PORTC]) ∧
    (∃ s5, runLoop 2000 5 startup = some s5 ∧ motorWrites s5.trace = [12, 6, 3, 9, 12]) :=
  C3_full_wave_sequence 2000 7 (by decide)

/-- C4 fails as stated: in the reachable state left by five Half-mode iterations
(index 5), a mode toggle selects the full-step table, which has no entry at
index 5, and the next iteration performs an out-of-bounds read. -/
theorem C4_half_to_full_no_entry :
    ∃ s, Reachable s ∧ s.StepMode = 1 ∧ s.stepIndex = 5 ∧
      (INT1_vect s).stepIndex = 5 ∧ sequence (INT1_vect s) = FULL_WAVE_motor_steps ∧
      FULL_WAVE_motor_steps.get? 5 = none ∧ ∀ fuel, loopBody fuel (INT1_vect s) = none := by
  obtain ⟨s1, _, hr, hm, hi⟩ := half_run_then_full 1954 (by decide)
  have hm2 : (INT1_vect s1).StepMode = 0 := by
    show (if s1.StepMode = 0 then 1 else 0) = 0
    rw [hm]
    rfl
  have hi2 : (INT1_vect s1).stepIndex = 5 := hi
  have hq : sequence (INT1_vect s1) = FULL_WAVE_motor_steps := by simp [sequence, hm2]
  refine ⟨s1, hr, hm, hi, hi2, hq, rfl, fun fuel => loopBody_none fuel _ ?_⟩
  rw [hq, hi2]
  rfl

/-- C4, amended: in every reachable state the INT1 handler flips `StepMode` and
leaves `stepIndex` unchanged, and whenever that index is below the length of the
newly selected table the next iteration returns and writes that table's entry at
the old index to the motor port.  The index is below the new length for every
Full-to-Half toggle, and for a Half-to-Full toggle when it is below 4. -/
theorem C4_mode_toggle_reads_old_index (s : State) (fuel : Nat) (hfuel : 1954 ≤ fuel)
    (hr : Reachable s) :
    (INT1_vect s).stepIndex = s.stepIndex ∧
    (INT1_vect s).StepMode = (if s.StepMode = 0 then 1 else 0) ∧
    steps (INT1_vect s) = (if s.StepMode = 0 then 8 else 4) ∧
    (s.StepMode = 0 → s.stepIndex < steps (INT1_vect s)) ∧
    (s.stepIndex < steps (INT1_vect s) →
      ∃ v s2, (sequence (INT1_vect s)).get? s.stepIndex = some v ∧
        loopBody fuel (INT1_vect s) = some s2 ∧ s2.PORTC = v ∧
        motorWrites s2.trace = motorWrites s.trace ++ [v]) := by
  have hb := Reachable_bounds s hr
  have hsteps : steps (INT1_vect s) = (if s.StepMode = 0 then 8 else 4) := by
    by_cases hm : s.StepMode = 0 <;> simp [steps, INT1_vect, hm, FULL_WAVE_STEPS,
      HALF_WAVE_STEPS]
  refine ⟨rfl, rfl, hsteps, ?_, ?_⟩
  · intro hm
    rw [hsteps, if_pos hm]
    exact hb.1
  · intro hlt
    obtain ⟨v, hget, hv16⟩ := sequence_get?_of_lt (INT1_vect s) hlt
    obtain ⟨s2, h2, hv⟩ := loopBody_step fuel (INT1_vect s) v hfuel hget
    simp only [motorView, Prod.mk.injEq] at hv
    obtain ⟨_, _, _, hp, hmw⟩ := hv
    rw [Nat.mod_eq_of_lt (by omega : v < 256)] at hp hmw
    exact ⟨v, s2, hget, h2, hp, hmw⟩

/-- C4 amended, at `startup` with fuel 2000. -/
theorem C4_mode_toggle_reads_old_index_witness :
    (INT1_vect startup).stepIndex = startup.stepIndex ∧
    (INT1_vect startup).StepMode = (if startup.StepMode = 0 then 1 else 0) ∧
    steps (INT1_vect startup) = (if startup.StepMode = 0 then 8 else 4) ∧
    (startup.StepMode = 0 → startup.stepIndex < steps (INT1_vect startup)) ∧
    (startup.stepIndex < steps (INT1_vect startup) →
      ∃ v s2, (sequence (INT1_vect startup)).get? startup.stepIndex = some v ∧
        loopBody 2000 (INT1_vect startup) = some s2 ∧ s2.PORTC = v ∧
        motorWrites s2.trace = motorWrites startup.trace ++ [v]) :=
  C4_mode_toggle_reads_old_index startup 2000 (by decide) Reachable.start

/-! ## C5 - C7: the display engine -/

/-- C5, amended: for every row in 0..3 and every column, `LCD_goToRowColumn`
returns after exactly one command, whose value is `SET_DDRAM_ADDRESS` OR-ed with
the 8-bit address `(base(row) + col) % 256` for the bases 0x00, 0x40, 0x10, 0x50;
the address is `base(row) + col` itself whenever that sum is below 256; row 3
column 15 gives address 0x5F and row 0 column 0 gives address 0x00. -/
theorem C5_goToRowColumn_address (row col : Nat) (s : State) (hrow : row < 4) :
    (∃ value, LCD_goToRowColumn row col s = some (LCD_sendCommand value s) ∧
      transactions (LCD_sendCommand value s).trace
        = transactions s.trace ++ [Event.command value] ∧
      value = (SET_DDRAM_ADDRESS ||| (([0x00, 0x40, 0x10, 0x50] : List Nat).getD row 0 + col))
        % 256 ∧
      value = SET_DDRAM_ADDRESS |||
        ((([0x00, 0x40, 0x10, 0x50] : List Nat).getD row 0 + col) % 256) ∧
      (([0x00, 0x40, 0x10, 0x50] : List Nat).getD row 0 + col < 256 →
        value = SET_DDRAM_ADDRESS ||| (([0x00, 0x40, 0x10, 0x50] : List Nat).getD row 0 + col))) ∧
    LCD_goToRowColumn 3 15 s = some (LCD_sendCommand (SET_DDRAM_ADDRESS ||| 0x5F) s) ∧
    LCD_goToRowColumn 0 0 s = some (LCD_sendCommand (SET_DDRAM_ADDRESS ||| 0x00) s) := by
  refine ⟨?_, rfl, rfl⟩
  have hor : ∀ a, a < 256 → (SET_DDRAM_ADDRESS ||| a) % 256 = SET_DDRAM_ADDRESS ||| a := by
    intro a ha
    exact Nat.mod_eq_of_lt (@Nat.or_lt_two_pow _ _ 8 (by decide) ha)
  have htr : ∀ value, transactions (LCD_sendCommand value s).trace
      = transactions s.trace ++ [Event.command value] := by
    intro value
    rw [LCD_sendCommand_trace, transactions_append, transactions_commandEvents]
  have hmod : ∀ n, n % 256 < 256 := fun n => Nat.mod_lt _ (by decide)
  interval_cases row
  · refine ⟨SET_DDRAM_ADDRESS ||| ((0x00 + col) % 256), ?_, htr _,
      (set_address_or_mod _).symm, rfl, fun h => ?_⟩
    · show some (LCD_sendCommand ((SET_DDRAM_ADDRESS ||| ((col + 0x00) % 256)) % 256) s) = _
      rw [hor _ (hmod _), Nat.add_comm col 0x00]
    · have h2 : (0x00 + col) % 256 = 0x00 + col := Nat.mod_eq_of_lt h
      rw [h2]
      rfl
  · refine ⟨SET_DDRAM_ADDRESS ||| ((0x40 + col) % 256), ?_, htr _,
      (set_address_or_mod _).symm, rfl, fun h => ?_⟩
    · show some (LCD_sendCommand ((SET_DDRAM_ADDRESS ||| ((col + 0x40) % 256)) % 256) s) = _
      rw [hor _ (hmod _), Nat.add_comm col 0x40]
    · have h2 : (0x40 + col) % 256 = 0x40 + col := Nat.mod_eq_of_lt h
      rw [h2]
      rfl
  · refine ⟨SET_DDRAM_ADDRESS ||| ((0x10 + col) % 256), ?_, htr _,
      (set_address_or_mod _).symm, rfl, fun h => ?_⟩
    · show some (LCD_sendCommand ((SET_DDRAM_ADDRESS ||| ((col + 0x10) % 256)) % 256) s) = _
      rw [hor _ (hmod _), Nat.add_comm col 0x10]
    · have h2 : (0x10 + col) % 256 = 0x10 + col := Nat.mod_eq_of_lt h
      rw [h2]
      rfl
  · refine ⟨SET_DDRAM_ADDRESS ||| ((0x50 + col) % 256), ?_, htr _,
      (set_address_or_mod _).symm, rfl, fun h => ?_⟩
    · show some (LCD_sendCommand ((SET_DDRAM_ADDRESS ||| ((col + 0x50) % 256)) % 256) s) = _
      rw [hor _ (hmod _), Nat.add_comm col 0x50]
    · have h2 : (0x50 + col) % 256 = 0x50 + col := Nat.mod_eq_of_lt h
      rw [h2]
      rfl

/-- C5 amended, at row 1, column 200, where the 8-bit sum wraps. -/
theorem C5_goToRowColumn_address_witness :
    (∃ value, LCD_goToRowColumn 1 200 resetState = some (LCD_sendCommand value resetState) ∧
      transactions (LCD_sendCommand value resetState).trace
        = transactions resetState.trace ++ [Event.command value] ∧
      value = (SET_DDRAM_ADDRESS ||| (([0x00, 0x40, 0x10, 0x50] : List Nat).getD 1 0 + 200))
        % 256 ∧
      value = SET_DDRAM_ADDRESS |||
        ((([0x00, 0x40, 0x10, 0x50] : List Nat).getD 1 0 + 200) % 256) ∧
      (([0x00, 0x40, 0x10, 0x50] : List Nat).getD 1 0 + 200 < 256 →
        value = SET_DDRAM_ADDRESS ||| (([0x00, 0x40, 0x10, 0x50] : List Nat).getD 1 0 + 200))) ∧
    LCD_goToRowColumn 3 15 resetState
      = some (LCD_sendCommand (SET_DDRAM_ADDRESS ||| 0x5F) resetState) ∧
    LCD_goToRowColumn 0 0 resetState
      = some (LCD_sendCommand (SET_DDRAM_ADDRESS ||| 0x00) resetState) :=
  C5_goToRowColumn_address 1 200 resetState (by decide)

/-- C5 fails as stated at row 1, column 200: the sum `0x40 + 200 = 264` does not
fit the `uint8` variable `Address`, which becomes 8, so the one command issued is
0x88 and not `SET_DDRAM_ADDRESS` OR-ed with 264, which is 0x188. -/
theorem C5_address_wraps_at_row_1_column_200 :
    LCD_goToRowColumn_Address 1 200 = some 8 ∧
    LCD_goToRowColumn 1 200 resetState = some (LCD_sendCommand 0x88 resetState) ∧
    transactions (LCD_sendCommand 0x88 resetState).trace
      = transactions resetState.trace ++ [Event.command 0x88] ∧
    SET_DDRAM_ADDRESS ||| (0x40 + 200) = 0x188 ∧
    ¬ LCD_goToRowColumn 1 200 resetState
      = some (LCD_sendCommand (SET_DDRAM_ADDRESS ||| (0x40 + 200)) resetState) := by
  have hgo : LCD_goToRowColumn 1 200 resetState = some (LCD_sendCommand 0x88 resetState) := rfl
  refine ⟨rfl, hgo, ?_, by decide, ?_⟩
  · rw [LCD_sendCommand_trace, transactions_append, transactions_commandEvents]
  · intro h
    rw [hgo] at h
    have ht := congrArg (fun t : State => transactions t.trace) (Option.some.inj h)
    simp only [LCD_sendCommand_trace, transactions_append, transactions_commandEvents] at ht
    have hc := List.append_cancel_left ht
    simp only [List.cons.injEq, Event.command.injEq, and_true] at hc
    exact absurd hc (by decide)

theorem dataWrites_commandEvents (c a b : Nat) :
    dataWrites (commandEvents c a b)
      = [((a &&& 0xF0) ||| ((c &&& 0xF0) >>> 4)) % 256,
         (((((a &&& 0xF0) ||| ((c &&& 0xF0) >>> 4)) % 256) &&& 0xF0) ||| (c &&& 0x0F)) % 256] := by
  simp [commandEvents, dataWrites]

theorem dataWrites_characterEvents (c a b : Nat) :
    dataWrites (characterEvents c a b)
      = [((a &&& 0xF0) ||| ((c &&& 0xF0) >>> 4)) % 256,
         (((((a &&& 0xF0) ||| ((c &&& 0xF0) >>> 4)) % 256) &&& 0xF0) ||| (c &&& 0x0F)) % 256] := by
  simp [characterEvents, dataWrites]

/-- The two data-port values of a transfer of `b` carry its two nibbles. -/
theorem nibbles_of_transfer (a b : Nat) (hb : b < 256) :
    (((a &&& 0xF0) ||| ((b &&& 0xF0) >>> 4)) % 256) % 16 = b >>> 4 ∧
    ((((((a &&& 0xF0) ||| ((b &&& 0xF0) >>> 4)) % 256) &&& 0xF0) ||| (b &&& 0x0F)) % 256) % 16
      = b &&& 0x0F ∧
    16 * ((((a &&& 0xF0) ||| ((b &&& 0xF0) >>> 4)) % 256) % 16)
      + ((((((a &&& 0xF0) ||| ((b &&& 0xF0) >>> 4)) % 256) &&& 0xF0) ||| (b &&& 0x0F)) % 256) % 16
      = b := by
  have hhi : (b &&& 0xF0) >>> 4 = b / 16 := high_nibble_eq b hb
  have hlo : b &&& 0x0F = b % 16 := low_nibble_eq b
  have hsh : b >>> 4 = b / 16 := Nat.shiftRight_eq_div_pow b 4
  have h1 := low_nibble_of_or a (b / 16) (by omega)
  have h2 := low_nibble_of_or (((a &&& 0xF0) ||| (b / 16)) % 256) (b % 16)
    (Nat.mod_lt _ (by decide))
  rw [hhi, hlo, hsh, h1, h2]
  exact ⟨rfl, rfl, by omega⟩

/-- C6: in 4-bit lower-pins mode, for every byte `b`, `LCD_sendCommand(b)` and
`LCD_displayCharacter(b)` each write the data port exactly twice; the low four
bits of the first write are `b >> 4`, those of the second are `b & 0x0F`, and
`16 * first + second` reassembles `b`. -/
theorem C6_two_nibbles_high_first (b : Nat) (s : State) (hb : b < 256) :
    (∃ first second,
      dataWrites (LCD_sendCommand b s).trace = dataWrites s.trace ++ [first, second] ∧
      first % 16 = b >>> 4 ∧ second % 16 = b &&& 0x0F ∧
      16 * (first % 16) + second % 16 = b) ∧
    (∃ first second,
      dataWrites (LCD_displayCharacter b s).trace = dataWrites s.trace ++ [first, second] ∧
      first % 16 = b >>> 4 ∧ second % 16 = b &&& 0x0F ∧
      16 * (first % 16) + second % 16 = b) := by
  obtain ⟨h1, h2, h3⟩ := nibbles_of_transfer s.PORTA b hb
  constructor
  · refine ⟨_, _, ?_, h1, h2, h3⟩
    rw [LCD_sendCommand_trace, dataWrites_append, dataWrites_commandEvents]
  · refine ⟨_, _, ?_, h1, h2, h3⟩
    rw [LCD_displayCharacter_trace, dataWrites_append, dataWrites_characterEvents]

/-- C6 at the byte 0xAB with the data port at 0x50: the writes are 0x5A, 0x5B. -/
theorem C6_two_nibbles_high_first_witness :
    (∃ first second,
      dataWrites (LCD_sendCommand 0xAB { resetState with PORTA := 0x50 }).trace
        = dataWrites ({ resetState with PORTA := 0x50 } : State).trace ++ [first, second] ∧
      first % 16 = 0xAB >>> 4 ∧ second % 16 = 0xAB &&& 0x0F ∧
      16 * (first % 16) + second % 16 = 0xAB) ∧
    (∃ first second,
      dataWrites (LCD_displayCharacter 0xAB { resetState with PORTA := 0x50 }).trace
        = dataWrites ({ resetState with PORTA := 0x50 } : State).trace ++ [first, second] ∧
      first % 16 = 0xAB >>> 4 ∧ second % 16 = 0xAB &&& 0x0F ∧
      16 * (first % 16) + second % 16 = 0xAB) :=
  C6_two_nibbles_high_first 0xAB { resetState with PORTA := 0x50 } (by decide)

theorem LCD_sendCommand_DDRB (c : Nat) (s : State) : (LCD_sendCommand c s).DDRB = s.DDRB := by
  simp [LCD_sendCommand, logEvent, CLEAR_BIT, SET_BIT, _delay_ms, writeReg,
    readReg, LCD_CTRL_PORT, LCD_DATA_PORT]

theorem LCD_init_trace (s : State) :
    (LCD_init s).trace
      = s.trace ++ Event.write LCD_CTRL_PORT_DIR ((s.DDRB ||| 7) % 256) ::
        (Event.write LCD_DATA_PORT ((s.PORTA ||| (1 <<< 0x0F)) % 256) ::
          (commandEvents FOUR_BITS_DATA_MODE
              (LCD_init_stores s).PORTA (LCD_init_stores s).PORTB
            ++ commandEvents TWO_LINE_4_BIT_MODE
              (LCD_sendCommand FOUR_BITS_DATA_MODE (LCD_init_stores s)).PORTA
              (LCD_sendCommand FOUR_BITS_DATA_MODE (LCD_init_stores s)).PORTB
            ++ commandEvents DISPLAY_ON_CURSOR_BLINKING
              (LCD_sendCommand TWO_LINE_4_BIT_MODE
                (LCD_sendCommand FOUR_BITS_DATA_MODE (LCD_init_stores s))).PORTA
              (LCD_sendCommand TWO_LINE_4_BIT_MODE
                (LCD_sendCommand FOUR_BITS_DATA_MODE (LCD_init_stores s))).PORTB
            ++ commandEvents CLEAR_DISPLAY
              (LCD_sendCommand DISPLAY_ON_CURSOR_BLINKING (LCD_sendCommand TWO_LINE_4_BIT_MODE
                (LCD_sendCommand FOUR_BITS_DATA_MODE (LCD_init_stores s)))).PORTA
              (LCD_sendCommand DISPLAY_ON_CURSOR_BLINKING (LCD_sendCommand TWO_LINE_4_BIT_MODE
                (LCD_sendCommand FOUR_BITS_DATA_MODE (LCD_init_stores s)))).PORTB)) := by
  have h : LCD_init s = LCD_sendCommand CLEAR_DISPLAY (LCD_sendCommand DISPLAY_ON_CURSOR_BLINKING
      (LCD_sendCommand TWO_LINE_4_BIT_MODE (LCD_sendCommand FOUR_BITS_DATA_MODE
        (LCD_init_stores s)))) := rfl
  have h0 : (LCD_init_stores s).trace
      = s.trace ++ [Event.write LCD_CTRL_PORT_DIR ((s.DDRB ||| 7) % 256),
        Event.write LCD_DATA_PORT ((s.PORTA ||| (1 <<< 0x0F)) % 256)] := by
    simp [LCD_init_stores, SET_BIT, writeReg, readReg, LCD_CTRL_PORT_DIR, LCD_DATA_PORT, RS, RW,
      E, PB0, PB1, PB2]
  rw [h]
  simp only [LCD_sendCommand_trace, h0, List.append_assoc, List.cons_append, List.nil_append]

/-- C7: `LCD_init` first stores to the control direction register a value with
the bits of RS, RW and E set, and then issues exactly four commands, in the order
0x02 (4-bit function set), 0x28 (two-line mode), 0x0F (display on with cursor),
0x01 (clear). -/
theorem C7_LCD_init_sequence (s : State) :
    ∃ rest, (LCD_init s).trace
        = s.trace ++ Event.write LCD_CTRL_PORT_DIR ((s.DDRB ||| 7) % 256) :: rest ∧
      ((s.DDRB ||| 7) % 256).testBit RS = true ∧
      ((s.DDRB ||| 7) % 256).testBit RW = true ∧
      ((s.DDRB ||| 7) % 256).testBit E = true ∧
      (LCD_init s).DDRB = (s.DDRB ||| 7) % 256 ∧
      transactions rest = [Event.command FOUR_BITS_DATA_MODE, Event.command TWO_LINE_4_BIT_MODE,
        Event.command DISPLAY_ON_CURSOR_BLINKING, Event.command CLEAR_DISPLAY] ∧
      transactions (LCD_init s).trace = transactions s.trace ++
        [Event.command 0x02, Event.command 0x28, Event.command 0x0F, Event.command 0x01] := by
  have htr := LCD_init_trace s
  have hstores : LCD_init s = LCD_sendCommand CLEAR_DISPLAY
      (LCD_sendCommand DISPLAY_ON_CURSOR_BLINKING (LCD_sendCommand TWO_LINE_4_BIT_MODE
        (LCD_sendCommand FOUR_BITS_DATA_MODE (LCD_init_stores s)))) := rfl
  have hddr : (LCD_init s).DDRB = (s.DDRB ||| 7) % 256 := by
    rw [hstores]
    simp only [LCD_sendCommand_DDRB]
    simp [LCD_init_stores, SET_BIT, writeReg, readReg, LCD_CTRL_PORT_DIR, LCD_DATA_PORT, RS, RW,
      E, PB0, PB1, PB2]
  have hw : ∀ v es, transactions (Event.write LCD_DATA_PORT v :: es) = transactions es :=
    fun _ _ => rfl
  have hw2 : ∀ v es, transactions (Event.write LCD_CTRL_PORT_DIR v :: es) = transactions es :=
    fun _ _ => rfl
  refine ⟨_, htr, low_bits_set _ 0 (by decide), low_bits_set _ 1 (by decide),
    low_bits_set _ 2 (by decide), hddr, ?_, ?_⟩
  · rw [hw]
    simp only [transactions_append, transactions_commandEvents]
    rfl
  · rw [htr, transactions_append, hw2, hw]
    simp only [transactions_append, transactions_commandEvents]
    rfl

/-! ## C8 - C9: the display refresh gate -/

theorem updateLCD_repeat_same (direction mode fuel n : Nat) (s : State)
    (hd : direction = s.prevDirection) (hm : mode = s.prevMode) :
    updateLCD_repeat direction mode fuel n s = some s := by
  induction n with
  | zero => rfl
  | succ k ih => simp [updateLCD_repeat, updateLCD_same direction mode fuel s hd hm, ih]

theorem startup_control : control startup = (CW, 0, 0, 0, 255, 255, 0) := by
  have h : startup = { LCD_sendCommand CLEAR_DISPLAY (LCD_sendCommand DISPLAY_ON_CURSOR_BLINKING
      (LCD_sendCommand TWO_LINE_4_BIT_MODE (LCD_sendCommand FOUR_BITS_DATA_MODE
        (LCD_init_stores (writeReg Reg.DDRC 0xFF resetState))))) with stepIndex := 0 } := rfl
  have hc : ∀ t : State, control { t with stepIndex := 0 }
      = (t.MotorDirection, t.StepMode, t.timer0_ticks, 0, t.prevDirection, t.prevMode,
        t.PORTC) := fun _ => rfl
  have hs : ∀ c (t : State), control (LCD_sendCommand c t) = control t :=
    LCD_sendCommand_control
  simp only [control, Prod.mk.injEq] at hs
  rw [h, hc]
  simp only [hs]
  simp [LCD_init_stores, SET_BIT, writeReg, readReg, LCD_CTRL_PORT_DIR, LCD_DATA_PORT,
    resetState]

/-- C8: once `updateLCD(direction, mode)` has been called (it returns, given fuel
for the labels), any number of further consecutive calls with the same pair,
whatever their fuel, return the very same state: no command, no character, no
register write is added to the trace and the remembered pair stays
`(direction, mode)`. -/
theorem C8_updateLCD_idempotent (direction mode fuel : Nat) (s : State) (hfuel : 6 ≤ fuel) :
    ∃ s1, updateLCD direction mode fuel s = some s1 ∧
      s1.prevDirection = direction ∧ s1.prevMode = mode ∧
      ∀ n fuel2, updateLCD_repeat direction mode fuel2 n s1 = some s1 ∧
        (∀ s2, updateLCD_repeat direction mode fuel2 n s1 = some s2 →
          s2.trace = s1.trace ∧ s2.prevDirection = s1.prevDirection ∧
            s2.prevMode = s1.prevMode) := by
  obtain ⟨s1, h1⟩ := updateLCD_returns direction mode fuel s hfuel
  have hprev : s1.prevDirection = direction ∧ s1.prevMode = mode := by
    by_cases hne : direction ≠ s.prevDirection ∨ mode ≠ s.prevMode
    · exact (updateLCD_some _ _ _ _ _ h1).2.2.2 hne
    · have hd : direction = s.prevDirection := by
        by_contra h
        exact hne (Or.inl h)
      have hm : mode = s.prevMode := by
        by_contra h
        exact hne (Or.inr h)
      rw [(updateLCD_some _ _ _ _ _ h1).2.2.1 ⟨hd, hm⟩]
      exact ⟨hd.symm, hm.symm⟩
  refine ⟨s1, h1, hprev.1, hprev.2, fun n fuel2 => ?_⟩
  have hrep := updateLCD_repeat_same direction mode fuel2 n s1 hprev.1.symm hprev.2.symm
  refine ⟨hrep, fun s2 h2 => ?_⟩
  rw [hrep] at h2
  rw [← Option.some.inj h2]
  exact ⟨rfl, rfl, rfl⟩

/-- C8 at `startup`, pair (CW, Full), three further calls without any fuel. -/
theorem C8_updateLCD_idempotent_witness :
    ∃ s1, updateLCD CW 0 6 startup = some s1 ∧
      s1.prevDirection = CW ∧ s1.prevMode = 0 ∧
      ∀ n fuel2, updateLCD_repeat CW 0 fuel2 n s1 = some s1 ∧
        (∀ s2, updateLCD_repeat CW 0 fuel2 n s1 = some s2 →
          s2.trace = s1.trace ∧ s2.prevDirection = s1.prevDirection ∧
            s2.prevMode = s1.prevMode) :=
  C8_updateLCD_idempotent CW 0 6 startup (by decide)

/-- C9: when `(direction, mode)` differs from the last rendered pair, and on the
first call after startup for direction and mode in {0, 1}, `updateLCD` returns
and adds to the LCD transactions, in this order: the clear command, the
set-address command for row 0 column 0, the characters of "Dir:" and of "CW "
(direction `CW`) or "CCW" (otherwise), the set-address command for row 1
column 0, the characters of "Mode:" and of "Full" (mode 0) or "Half"
(otherwise); it then remembers the pair. -/
theorem C9_updateLCD_render (direction mode fuel : Nat) (s : State) (hfuel : 6 ≤ fuel)
    (hne : (direction ≠ s.prevDirection ∨ mode ≠ s.prevMode) ∨
      (s = startup ∧ direction ≤ 1 ∧ mode ≤ 1)) :
    ∃ s1, updateLCD direction mode fuel s = some s1 ∧
      transactions s1.trace = transactions s.trace ++
        ([Event.command CLEAR_DISPLAY, Event.command (SET_DDRAM_ADDRESS ||| (0x00 + 0))]
          ++ text "Dir:" ++ text (if direction = CW then "CW " else "CCW")
          ++ [Event.command (SET_DDRAM_ADDRESS ||| (0x40 + 0))]
          ++ text "Mode:" ++ text (if mode = 0 then "Full" else "Half")) ∧
      s1.prevDirection = direction ∧ s1.prevMode = mode := by
  have hne2 : direction ≠ s.prevDirection ∨ mode ≠ s.prevMode := by
    rcases hne with h | ⟨hs, hd, _⟩
    · exact h
    · have hc := startup_control
      simp only [control, Prod.mk.injEq] at hc
      left
      rw [hs, hc.2.2.2.2.1]
      omega
  refine ⟨_, updateLCD_changed direction mode fuel s hne2 hfuel, ?_, rfl, rfl⟩
  show transactions (render direction mode s).trace = _
  rw [render_transactions]
  congr 1
  by_cases hd : direction = CW <;> by_cases hm : mode = 0 <;>
    simp [hd, hm, dirText, modeText, text, CLEAR_DISPLAY, SET_DDRAM_ADDRESS]

/-- C9 at the first call after startup, with the pair (CCW, Half). -/
theorem C9_updateLCD_render_witness :
    ∃ s1, updateLCD 0 1 6 startup = some s1 ∧
      transactions s1.trace = transactions startup.trace ++
        ([Event.command CLEAR_DISPLAY, Event.command (SET_DDRAM_ADDRESS ||| (0x00 + 0))]
          ++ text "Dir:" ++ text (if 0 = CW then "CW " else "CCW")
          ++ [Event.command (SET_DDRAM_ADDRESS ||| (0x40 + 0))]
          ++ text "Mode:" ++ text (if 1 = 0 then "Full" else "Half")) ∧
      s1.prevDirection = 0 ∧ s1.prevMode = 1 :=
  C9_updateLCD_render 0 1 6 startup (by decide) (Or.inr ⟨rfl, by decide, by decide⟩)

/-! ## C10: the tick-counted delay -/

/-- Up to 16777 ms the threshold of `delay_ms` is `ms * (F_CPU / 1000) / 256`. -/
theorem delay_ms_ticks_exact (ms : Nat) (h : ms ≤ 16777) :
    delay_ms_ticks ms = ms * (F_CPU / 1000) / 256 := by
  have hF : F_CPU / 1000 = 1000 := by decide
  unfold delay_ms_ticks
  rw [hF, Nat.mod_eq_of_lt (by omega : ms * 1000 < 2 ^ 32), Nat.mod_eq_of_lt]
  have : ms * 1000 / 256 ≤ 65535 := by omega
  omega

/-- A call `delay_ms(0)` returns at the first test of the loop condition, with
the tick counter reset and no tick taken. -/
theorem delay_ms_zero (s : State) :
    delay_ms 0 1 s = some { s with timer0_ticks := 0 } := by
  simp [delay_ms, delay_ms_wait, delay_ms_ticks]

/-- C10 fails on the code at `delay_ms(16778)`: the quotient 65539 does not fit
the `uint16_t` threshold, which becomes 3, and the call returns after three
ticks. -/
theorem C10_threshold_truncated :
    16778 * (F_CPU / 1000) / 256 = 65539 ∧ delay_ms_ticks 16778 = 3 ∧
      delay_ms 16778 4 resetState = some { resetState with timer0_ticks := 3 } := by
  refine ⟨by decide, by decide, ?_⟩
  have h : delay_ms_ticks 16778 = 3 := by decide
  have h2 := delay_ms_eq 16778 4 resetState (by rw [h]; decide)
  rw [h] at h2
  exact h2

/-! ## C11, C13, C19, C20: handlers, index arithmetic, tables -/

/-- The index left by lines 149-158 is `nextStepIndex` of the values read. -/
theorem stepMotor_stepIndex (s s1 : State) (h : stepMotor s = some s1) :
    s1.stepIndex = nextStepIndex s.MotorDirection (steps s) s.stepIndex := by
  cases hget : (sequence s).get? s.stepIndex with
  | none =>
    rw [stepMotor_none s hget] at h
    exact Option.noConfusion h
  | some v =>
    obtain ⟨s1b, h1b, hv⟩ := stepMotor_eq s v hget
    rw [h] at h1b
    rw [← Option.some.inj h1b] at hv
    simp only [motorView, Prod.mk.injEq] at hv
    rw [hv.2.2.1]
    rfl

/-- C11: each edge handler toggles its own flag and nothing else.  With
`MotorDirection` in {CW, CCW} the INT0 handler stores the other value and leaves
every other component of the state (in particular `StepMode` and `stepIndex`)
as it was; with `StepMode` in {0, 1} the INT1 handler does the same for
`StepMode`; two firings of the same handler restore the state. -/
theorem C11_handlers_toggle_own_flag (s : State)
    (hd : s.MotorDirection = CW ∨ s.MotorDirection = CCW)
    (hm : s.StepMode = 0 ∨ s.StepMode = 1) :
    INT0_vect s = { s with MotorDirection := if s.MotorDirection = CW then CCW else CW } ∧
    (INT0_vect s).MotorDirection ≠ s.MotorDirection ∧
    ((INT0_vect s).MotorDirection = CW ∨ (INT0_vect s).MotorDirection = CCW) ∧
    (INT0_vect s).StepMode = s.StepMode ∧ (INT0_vect s).stepIndex = s.stepIndex ∧
    INT1_vect s = { s with StepMode := if s.StepMode = 0 then 1 else 0 } ∧
    (INT1_vect s).StepMode ≠ s.StepMode ∧
    ((INT1_vect s).StepMode = 0 ∨ (INT1_vect s).StepMode = 1) ∧
    (INT1_vect s).MotorDirection = s.MotorDirection ∧ (INT1_vect s).stepIndex = s.stepIndex ∧
    INT0_vect (INT0_vect s) = s ∧ INT1_vect (INT1_vect s) = s := by
  cases s
  simp only [INT0_vect, INT1_vect, CW, CCW] at hd hm ⊢
  rcases hd with hd | hd <;> rcases hm with hm | hm <;> subst hd <;> subst hm <;> simp

/-- C11 at the reset state (clockwise, full step). -/
theorem C11_handlers_toggle_own_flag_witness :
    INT0_vect resetState
      = { resetState with MotorDirection := if resetState.MotorDirection = CW then CCW else CW } ∧
    (INT0_vect resetState).MotorDirection ≠ resetState.MotorDirection ∧
    ((INT0_vect resetState).MotorDirection = CW ∨ (INT0_vect resetState).MotorDirection = CCW) ∧
    (INT0_vect resetState).StepMode = resetState.StepMode ∧
    (INT0_vect resetState).stepIndex = resetState.stepIndex ∧
    INT1_vect resetState = { resetState with StepMode := if resetState.StepMode = 0 then 1 else 0 } ∧
    (INT1_vect resetState).StepMode ≠ resetState.StepMode ∧
    ((INT1_vect resetState).StepMode = 0 ∨ (INT1_vect resetState).StepMode = 1) ∧
    (INT1_vect resetState).MotorDirection = resetState.MotorDirection ∧
    (INT1_vect resetState).stepIndex = resetState.stepIndex ∧
    INT0_vect (INT0_vect resetState) = resetState ∧ INT1_vect (INT1_vect resetState) = resetState :=
  C11_handlers_toggle_own_flag resetState (Or.inl rfl) (Or.inl rfl)

/-- C20: the half-step table interleaves the full-step table: for `k` in 0..3,
entry `2k` is full-step entry `k` and entry `2k + 1` is the bitwise AND of
full-step entries `k` and `(k + 1) % 4`; every entry of both tables is non-zero
and below 16. -/
theorem C20_half_table_interleaves_full (k : Nat) (hk : k < 4) :
    HALF_WAVE_motor_steps.get? (2 * k) = FULL_WAVE_motor_steps.get? k ∧
    HALF_WAVE_motor_steps.get? (2 * k + 1)
      = some (FULL_WAVE_motor_steps.getD k 0 &&& FULL_WAVE_motor_steps.getD ((k + 1) % 4) 0) ∧
    (FULL_WAVE_motor_steps.get? k).isSome = true ∧
    FULL_WAVE_motor_steps.length = FULL_WAVE_STEPS ∧
    HALF_WAVE_motor_steps.length = HALF_WAVE_STEPS ∧
    (∀ v ∈ FULL_WAVE_motor_steps, v ≠ 0 ∧ v < 16) ∧
    (∀ v ∈ HALF_WAVE_motor_steps, v ≠ 0 ∧ v < 16) := by
  refine ⟨?_, ?_, ?_, rfl, rfl, by decide, by decide⟩ <;> interval_cases k <;> decide

/-- C20 at `k = 3`, where the successor entry wraps to entry 0. -/
theorem C20_half_table_interleaves_full_witness :
    HALF_WAVE_motor_steps.get? (2 * 3) = FULL_WAVE_motor_steps.get? 3 ∧
    HALF_WAVE_motor_steps.get? (2 * 3 + 1)
      = some (FULL_WAVE_motor_steps.getD 3 0 &&& FULL_WAVE_motor_steps.getD ((3 + 1) % 4) 0) ∧
    (FULL_WAVE_motor_steps.get? 3).isSome = true ∧
    FULL_WAVE_motor_steps.length = FULL_WAVE_STEPS ∧
    HALF_WAVE_motor_steps.length = HALF_WAVE_STEPS ∧
    (∀ v ∈ FULL_WAVE_motor_steps, v ≠ 0 ∧ v < 16) ∧
    (∀ v ∈ HALF_WAVE_motor_steps, v ≠ 0 ∧ v < 16) :=
  C20_half_table_interleaves_full 3 (by decide)

theorem nextStepIndex_inverse (len i : Nat) (hlen : len = 4 ∨ len = 8) (hi : i < len) :
    nextStepIndex CCW len (nextStepIndex CW len i) = i ∧
    nextStepIndex CW len (nextStepIndex CCW len i) = i ∧
    nextStepIndex CW len i < len ∧ nextStepIndex CCW len i < len := by
  rcases hlen with h | h <;> subst h <;> interval_cases i <;> decide

/-- An iteration read through `nextStepIndex`: with fuel for the delay and the
index inside the selected table, the iteration returns, keeps both flags, writes
the table entry at the old index and leaves `nextStepIndex`. -/
theorem loopBody_next (fuel : Nat) (s : State) (hfuel : 1954 ≤ fuel)
    (hi : s.stepIndex < steps s) :
    ∃ s2, loopBody fuel s = some s2 ∧ s2.MotorDirection = s.MotorDirection ∧
      s2.StepMode = s.StepMode ∧
      s2.stepIndex = nextStepIndex s.MotorDirection (steps s) s.stepIndex ∧
      some s2.PORTC = (sequence s).get? s.stepIndex := by
  obtain ⟨v, hget, hv16⟩ := sequence_get?_of_lt s hi
  obtain ⟨s2, h2, hv⟩ := loopBody_step fuel s v hfuel hget
  simp only [motorView, Prod.mk.injEq] at hv
  obtain ⟨hd, hm, hidx, hp, _⟩ := hv
  refine ⟨s2, h2, hd, hm, hidx, ?_⟩
  rw [hp, hget, Nat.mod_eq_of_lt (by omega : v < 256)]

/-- C19: on valid indices the clockwise and the counter-clockwise update are
mutually inverse, for `len` 4 and 8: retreating after advancing and advancing
after retreating both return `i`.  At the level of the loop: an iteration, a
direction toggle and a second iteration return, leave `stepIndex` where it
started, and the second iteration writes the table entry at the index the first
one moved to. -/
theorem C19_advance_retreat_inverse (s : State) (fuel len : Nat) (hfuel : 1954 ≤ fuel)
    (hlen : (s.StepMode = 0 ∧ len = 4) ∨ (s.StepMode = 1 ∧ len = 8))
    (hi : s.stepIndex < len) (hd : s.MotorDirection = CW ∨ s.MotorDirection = CCW) :
    nextStepIndex CCW len (nextStepIndex CW len s.stepIndex) = s.stepIndex ∧
    nextStepIndex CW len (nextStepIndex CCW len s.stepIndex) = s.stepIndex ∧
    ∃ s1 s2, loopBody fuel s = some s1 ∧ loopBody fuel (INT0_vect s1) = some s2 ∧
      s1.stepIndex = nextStepIndex s.MotorDirection len s.stepIndex ∧
      (INT0_vect s1).MotorDirection = (if s.MotorDirection = CW then CCW else CW) ∧
      s2.stepIndex = s.stepIndex ∧
      some s1.PORTC = (sequence s).get? s.stepIndex ∧
      some s2.PORTC = (sequence s).get? s1.stepIndex := by
  have hsteps : steps s = len := by
    rcases hlen with ⟨hm, hl⟩ | ⟨hm, hl⟩ <;> simp [steps, hm, hl, FULL_WAVE_STEPS,
      HALF_WAVE_STEPS]
  have hl48 : len = 4 ∨ len = 8 := by rcases hlen with ⟨_, hl⟩ | ⟨_, hl⟩ <;> simp [hl]
  obtain ⟨e1, e2, b1, b2⟩ := nextStepIndex_inverse len s.stepIndex hl48 hi
  refine ⟨e1, e2, ?_⟩
  obtain ⟨s1, h1, h1d, h1m, h1i, h1p⟩ := loopBody_next fuel s hfuel (by rw [hsteps]; exact hi)
  rw [hsteps] at h1i
  have ht : (INT0_vect s1).MotorDirection = (if s.MotorDirection = CW then CCW else CW) := by
    show (if s1.MotorDirection = CW then CCW else CW) = _
    rw [h1d]
  have htm : (INT0_vect s1).StepMode = s.StepMode := h1m
  have hti : (INT0_vect s1).stepIndex = s1.stepIndex := rfl
  have hts : steps (INT0_vect s1) = len := by rw [steps_congr s _ htm, hsteps]
  have h1lt : s1.stepIndex < len := by
    rw [h1i]
    rcases hd with h | h <;> rw [h]
    · exact b1
    · exact b2
  obtain ⟨s2, h2, _, _, h2i, h2p⟩ := loopBody_next fuel (INT0_vect s1) hfuel
    (by rw [hts, hti]; exact h1lt)
  refine ⟨s1, s2, h1, h2, h1i, ht, ?_, h1p, ?_⟩
  · rw [h2i, ht, hts, hti, h1i]
    rcases hd with h | h <;> rw [h]
    · exact e1
    · exact e2
  · rw [h2p, sequence_congr s _ htm, hti]

/-- C19 in Half mode at index 7, counter-clockwise first. -/
theorem C19_advance_retreat_inverse_witness :
    nextStepIndex CCW 8 (nextStepIndex CW 8
      ({ resetState with StepMode := 1, MotorDirection := CCW, stepIndex := 7 } : State).stepIndex)
      = ({ resetState with StepMode := 1, MotorDirection := CCW, stepIndex := 7 } : State).stepIndex ∧
    nextStepIndex CW 8 (nextStepIndex CCW 8
      ({ resetState with StepMode := 1, MotorDirection := CCW, stepIndex := 7 } : State).stepIndex)
      = ({ resetState with StepMode := 1, MotorDirection := CCW, stepIndex := 7 } : State).stepIndex ∧
    ∃ s1 s2,
      loopBody 2000 { resetState with StepMode := 1, MotorDirection := CCW, stepIndex := 7 }
        = some s1 ∧
      loopBody 2000 (INT0_vect s1) = some s2 ∧
      s1.stepIndex = nextStepIndex
        ({ resetState with StepMode := 1, MotorDirection := CCW, stepIndex := 7 } : State).MotorDirection
        8 ({ resetState with StepMode := 1, MotorDirection := CCW, stepIndex := 7 } : State).stepIndex ∧
      (INT0_vect s1).MotorDirection
        = (if ({ resetState with StepMode := 1, MotorDirection := CCW, stepIndex := 7 } : State).MotorDirection
            = CW then CCW else CW) ∧
      s2.stepIndex
        = ({ resetState with StepMode := 1, MotorDirection := CCW, stepIndex := 7 } : State).stepIndex ∧
      some s1.PORTC
        = (sequence { resetState with StepMode := 1, MotorDirection := CCW, stepIndex := 7 }).get?
          ({ resetState with StepMode := 1, MotorDirection := CCW, stepIndex := 7 } : State).stepIndex ∧
      some s2.PORTC
        = (sequence { resetState with StepMode := 1, MotorDirection := CCW, stepIndex := 7 }).get?
          s1.stepIndex :=
  C19_advance_retreat_inverse { resetState with StepMode := 1, MotorDirection := CCW, stepIndex := 7 }
    2000 8 (by decide) (Or.inr ⟨rfl, rfl⟩) (by decide) (Or.inr rfl)

/-- The clockwise update lands inside the table from every 8-bit index, and the
counter-clockwise update does so from every index up to the table length. -/
theorem nextStepIndex_range (len i : Nat) (hlen : len = 4 ∨ len = 8) (hi : i < 256) :
    nextStepIndex CW len i < len ∧ (i ≤ len → nextStepIndex CCW len i < len) := by
  have hcw : nextStepIndex CW len i = (i + 1) % len % 256 := by simp [nextStepIndex]
  have hccw : nextStepIndex CCW len i = (if i = 0 then len - 1 else i - 1) % 256 := by
    simp [nextStepIndex, CW, CCW]
  rw [hcw, hccw]
  rcases hlen with h | h <;> subst h <;> refine ⟨by omega, fun hle => ?_⟩ <;> split <;> omega

/-- The state left by a mode toggle and five clockwise iterations in Half mode. -/
theorem half_run_state :
    ∃ s1, Reachable s1 ∧ s1.StepMode = 1 ∧ s1.stepIndex = 5 ∧ s1.MotorDirection = CW := by
  have h0 := startup_motorView
  simp only [motorView, Prod.mk.injEq] at h0
  obtain ⟨hd, hm, hi, _, _⟩ := h0
  have hm1 : (Toggle.fire Toggle.mode startup).StepMode = 1 := by
    show (if startup.StepMode = 0 then 1 else 0) = 1
    rw [hm]
    rfl
  have hs : steps (Toggle.fire Toggle.mode startup) = 8 := by
    simp [steps, hm1, HALF_WAVE_STEPS]
  have hi1 : (Toggle.fire Toggle.mode startup).stepIndex = 0 := hi
  obtain ⟨s1, h1, h1d, h1m, h1i, _⟩ := runLoop_CW 1954 5 (Toggle.fire Toggle.mode startup)
    (by decide) hd (by rw [hs, hi1]; decide)
  refine ⟨s1, Reachable_runLoop 1954 5 _ s1 (Reachable.toggle Toggle.mode Reachable.start) h1,
    by rw [h1m, hm1], ?_, h1d⟩
  rw [h1i, hs, hi1]

/-- C13 fails on the code: in the reachable state with `StepMode` Full,
`MotorDirection` counter-clockwise and `stepIndex = 5` (mode toggle, five
iterations, mode toggle, direction toggle) the update of line 157 leaves 4,
still outside the 4-entry table, where the clockwise update of line 155 would
leave `6 % 4 = 2`; the iteration itself reads the table out of bounds. -/
theorem C13_retreat_stays_out_of_range :
    ∃ s, Reachable s ∧ s.StepMode = 0 ∧ s.MotorDirection = CCW ∧ s.stepIndex = 5 ∧
      steps s = 4 ∧ nextStepIndex s.MotorDirection (steps s) s.stepIndex = 4 ∧
      ¬ nextStepIndex s.MotorDirection (steps s) s.stepIndex < steps s ∧
      nextStepIndex CW (steps s) s.stepIndex = 2 ∧
      ∀ fuel, loopBody fuel s = none := by
  obtain ⟨s1, hr, hm, hi, hd⟩ := half_run_state
  have hm2 : (INT0_vect (INT1_vect s1)).StepMode = 0 := by
    show (if s1.StepMode = 0 then 1 else 0) = 0
    rw [hm]
    rfl
  have hd2 : (INT0_vect (INT1_vect s1)).MotorDirection = CCW := by
    show (if s1.MotorDirection = CW then CCW else CW) = CCW
    rw [hd]
    rfl
  have hi2 : (INT0_vect (INT1_vect s1)).stepIndex = 5 := hi
  have hs : steps (INT0_vect (INT1_vect s1)) = 4 := by simp [steps, hm2, FULL_WAVE_STEPS]
  have hr2 : Reachable (INT0_vect (INT1_vect s1)) :=
    Reachable.toggle Toggle.direction (Reachable.toggle Toggle.mode hr)
  refine ⟨_, hr2, hm2, hd2, hi2, hs, ?_, ?_, ?_, fun fuel => loopBody_none fuel _
    (sequence_get?_of_ge _ (by rw [hs, hi2]; decide))⟩
  · rw [hd2, hs, hi2]
    decide
  · rw [hd2, hs, hi2]
    decide
  · rw [hs, hi2]
    decide

/-! ## C16, C18: string output and initialisation of the data lines -/

/-- For a string of fewer than 256 non-zero characters `LCD_displayString`
returns, with more fuel than characters, after one character transaction per
character, in order, and none for the terminator. -/
theorem LCD_displayString_short (cs : List Nat) (fuel : Nat) (s : State)
    (hnz : ∀ c ∈ cs, c ≠ 0) (hlen : cs.length < 256) (hfuel : cs.length < fuel) :
    ∃ s2, LCD_displayString (cs ++ [0]) fuel s = some s2 ∧
      transactions s2.trace = transactions s.trace ++ cs.map Event.character :=
  ⟨displayAll cs s, LCD_displayString_eq cs fuel s hnz hlen hfuel, displayAll_transactions cs s⟩

theorem long_string_get? (i : Nat) (hi : i < 256) :
    (List.replicate 256 65 ++ [0]).get? i = some 65 := by
  rw [List.get?_eq_getElem?,
    List.getElem?_append_left (by rw [List.length_replicate]; exact hi),
    List.getElem?_replicate, if_pos hi]

/-- On the string of 256 letters `A` the loop never reaches the terminator:
the `uint8` counter wraps from 255 to 0. -/
theorem LCD_displayString_loop_long (fuel i : Nat) (s : State) (hi : i < 256) :
    LCD_displayString_loop (List.replicate 256 65 ++ [0]) fuel i s = none := by
  induction fuel generalizing i s with
  | zero => rfl
  | succ n ih =>
    rw [LCD_displayString_loop, long_string_get? i hi]
    exact ih ((i + 1) % 256) (LCD_displayCharacter 65 s) (Nat.mod_lt _ (by decide))

/-- C16 fails on the code: for the null-terminated string of 256 letters `A`
the call `LCD_displayString` does not return, whatever the fuel, because the
`uint8` counter `i` wraps to 0 before it reaches the terminator at offset 256;
with 255 letters it returns after 255 character transactions. -/
theorem C16_displayString_long_string_diverges :
    (List.replicate 256 65 ++ [0]).length = 257 ∧
    (List.replicate 256 65 ++ [0]).get? 256 = some 0 ∧
    (∀ c ∈ List.replicate 256 65, c ≠ 0) ∧
    (∀ fuel s, LCD_displayString (List.replicate 256 65 ++ [0]) fuel s = none) ∧
    (∀ s, ∃ s2, LCD_displayString (List.replicate 255 65 ++ [0]) 256 s = some s2 ∧
      transactions s2.trace
        = transactions s.trace ++ (List.replicate 255 65).map Event.character) := by
  refine ⟨by rw [List.length_append, List.length_replicate]; rfl, ?_, ?_,
    fun fuel s => LCD_displayString_loop_long fuel 0 s (by decide),
    fun s => LCD_displayString_short (List.replicate 255 65) 256 s ?_
      (by rw [List.length_replicate]; decide) (by rw [List.length_replicate]; decide)⟩
  · rw [List.get?_eq_getElem?,
      List.getElem?_append_right (by rw [List.length_replicate]), List.length_replicate]
    rfl
  · intro c hc
    rw [(List.mem_replicate.mp hc).2]
    decide
  · intro c hc
    rw [(List.mem_replicate.mp hc).2]
    decide

theorem LCD_sendCommand_DDRA (c : Nat) (s : State) : (LCD_sendCommand c s).DDRA = s.DDRA := by
  simp [LCD_sendCommand, logEvent, CLEAR_BIT, SET_BIT, _delay_ms, writeReg,
    readReg, LCD_CTRL_PORT, LCD_DATA_PORT]

/-- The data direction register is not written by `LCD_init`. -/
theorem LCD_init_DDRA (s : State) : (LCD_init s).DDRA = s.DDRA := by
  have h : LCD_init s = LCD_sendCommand CLEAR_DISPLAY (LCD_sendCommand DISPLAY_ON_CURSOR_BLINKING
      (LCD_sendCommand TWO_LINE_4_BIT_MODE (LCD_sendCommand FOUR_BITS_DATA_MODE
        (LCD_init_stores s)))) := rfl
  rw [h]
  simp only [LCD_sendCommand_DDRA]
  simp [LCD_init_stores, SET_BIT, writeReg, readReg, LCD_CTRL_PORT_DIR, LCD_DATA_PORT]

/-- The store `SET_BIT(LCD_DATA_PORT, 0x0F)` writes back the value of the data
port: bit 15 does not exist in an 8-bit register. -/
theorem SET_BIT_15_unchanged (v : Nat) : (v ||| (1 <<< 0x0F)) % 256 = v % 256 := by
  apply Nat.eq_of_testBit_eq
  intro i
  rw [show (256 : Nat) = 2 ^ 8 from rfl, Nat.testBit_mod_two_pow, Nat.testBit_mod_two_pow,
    Nat.testBit_or, show (1 <<< 0x0F : Nat) = 2 ^ 15 from rfl, Nat.testBit_two_pow]
  by_cases hi : i < 8
  · have h15 : ¬ 15 = i := by omega
    simp [hi, h15]
  · simp [hi]

/-- C18 fails on the code: `LCD_init` never stores to the data direction
register.  From the reset state it is still 0 afterwards, and no event of the
trace is a store to it; the statement of the lower-pins branch,
`SET_BIT(LCD_DATA_PORT, 0x0F)`, stores the unchanged value to the data port
instead. -/
theorem C18_data_direction_not_configured :
    (LCD_init resetState).DDRA = 0 ∧
    (LCD_init resetState).DDRA &&& 0x0F ≠ 0x0F ∧
    (∀ s, (LCD_init s).DDRA = s.DDRA) ∧
    (∀ v, Event.write LCD_DATA_PORT_DIR v ∉ (LCD_init resetState).trace) ∧
    (∀ s, ∃ rest, (LCD_init s).trace
      = s.trace ++ Event.write LCD_CTRL_PORT_DIR ((s.DDRB ||| 7) % 256) ::
        Event.write LCD_DATA_PORT (s.PORTA % 256) :: Event.command FOUR_BITS_DATA_MODE :: rest) := by
  have h0 : (LCD_init resetState).DDRA = 0 := LCD_init_DDRA resetState
  refine ⟨h0, by rw [h0]; decide, LCD_init_DDRA, ?_, ?_⟩
  · intro v hv
    rw [LCD_init_trace] at hv
    simp [commandEvents, LCD_DATA_PORT_DIR, LCD_CTRL_PORT_DIR, LCD_DATA_PORT, resetState] at hv
  · intro s
    have h := LCD_init_trace s
    obtain ⟨tl, htl⟩ : ∃ tl, commandEvents FOUR_BITS_DATA_MODE (LCD_init_stores s).PORTA
        (LCD_init_stores s).PORTB = Event.command FOUR_BITS_DATA_MODE :: tl := ⟨_, rfl⟩
    rw [SET_BIT_15_unchanged, htl] at h
    simp only [List.cons_append, List.append_assoc] at h
    exact ⟨_, h⟩

/-! ## C14, C15, C17: the bus protocol at register level -/

theorem testBit_setBit8 (v k i : Nat) :
    ((v ||| (1 <<< k)) % 256).testBit i = (decide (i < 8) && (v.testBit i || decide (k = i))) := by
  rw [show (256 : Nat) = 2 ^ 8 from rfl, Nat.testBit_mod_two_pow, Nat.testBit_or,
    Nat.one_shiftLeft, Nat.testBit_two_pow]

theorem testBit_clearBit8 (v k i : Nat) :
    ((v &&& (0xFFFF ^^^ (1 <<< k))) % 256).testBit i
      = (decide (i < 8) && (v.testBit i && !decide (k = i))) := by
  rw [show (256 : Nat) = 2 ^ 8 from rfl, Nat.testBit_mod_two_pow, Nat.testBit_and,
    Nat.testBit_xor, Nat.one_shiftLeft, Nat.testBit_two_pow,
    show (0xFFFF : Nat) = 2 ^ 16 - 1 from rfl, Nat.testBit_two_pow_sub_one]
  by_cases hi : i < 8
  · have h16 : i < 16 := by omega
    by_cases hki : k = i <;> simp [hi, h16, hki]
  · simp [hi]

theorem LCD_sendCommand_PORTB (c : Nat) (s : State) :
    (LCD_sendCommand c s).PORTB
      = ctrlAfterPulses ((((s.PORTB &&& (0xFFFF ^^^ (1 <<< RS))) % 256)
          &&& (0xFFFF ^^^ (1 <<< RW))) % 256) := by
  simp [LCD_sendCommand, ctrlAfterPulses, logEvent, CLEAR_BIT, SET_BIT, _delay_ms, writeReg,
    readReg, LCD_CTRL_PORT, LCD_DATA_PORT]

theorem LCD_displayCharacter_PORTB (c : Nat) (s : State) :
    (LCD_displayCharacter c s).PORTB
      = ctrlAfterPulses ((((s.PORTB ||| (1 <<< RS)) % 256)
          &&& (0xFFFF ^^^ (1 <<< RW))) % 256) := by
  simp [LCD_displayCharacter, ctrlAfterPulses, logEvent, CLEAR_BIT, SET_BIT, _delay_ms,
    writeReg, readReg, LCD_CTRL_PORT, LCD_DATA_PORT]

theorem LCD_sendCommand_PORTA (c : Nat) (s : State) :
    (LCD_sendCommand c s).PORTA = dataAfterTransfer c s.PORTA := by
  simp [LCD_sendCommand, dataAfterTransfer, logEvent, CLEAR_BIT, SET_BIT, _delay_ms, writeReg,
    readReg, LCD_CTRL_PORT, LCD_DATA_PORT]

theorem LCD_displayCharacter_PORTA (c : Nat) (s : State) :
    (LCD_displayCharacter c s).PORTA = dataAfterTransfer c s.PORTA := by
  simp [LCD_displayCharacter, dataAfterTransfer, logEvent, CLEAR_BIT, SET_BIT, _delay_ms,
    writeReg, readReg, LCD_CTRL_PORT, LCD_DATA_PORT]

/-- The strobe is low after the pulses of a transfer. -/
theorem strobeHigh_ctrlAfterPulses (b2 : Nat) : strobeHigh (ctrlAfterPulses b2) = false := by
  unfold strobeHigh ctrlAfterPulses
  rw [testBit_clearBit8]
  simp

/-- The walk over the events of a transfer whose stores to RS and RW leave the
control port at `b1` and then `b2`, both with the strobe at the level `e0` found
at entry. -/
theorem strobeWalk_transfer (first : Event) (hfirst : ∀ r v, first ≠ Event.write r v)
    (b1 b2 a1 a2 : Nat) (h12 : strobeHigh b2 = strobeHigh b1) :
    strobeWalk
      [first, Event.write Reg.PORTB b1, Event.write Reg.PORTB b2, Event.delay 1,
        Event.write Reg.PORTB ((b2 ||| (1 <<< E)) % 256), Event.delay 1,
        Event.write Reg.PORTA a1, Event.delay 1,
        Event.write Reg.PORTB ((((b2 ||| (1 <<< E)) % 256) &&& (0xFFFF ^^^ (1 <<< E))) % 256),
        Event.delay 1,
        Event.write Reg.PORTB
          ((((((b2 ||| (1 <<< E)) % 256) &&& (0xFFFF ^^^ (1 <<< E))) % 256) ||| (1 <<< E)) % 256),
        Event.delay 1, Event.write Reg.PORTA a2, Event.delay 1,
        Event.write Reg.PORTB (ctrlAfterPulses b2), Event.delay 1]
      false false 0 = some (false, false, 2) := by
  have hset : ∀ v, strobeHigh ((v ||| (1 <<< E)) % 256) = true := by
    intro v
    unfold strobeHigh
    rw [testBit_setBit8]
    simp [E, PB2]
  have hclr : ∀ v, strobeHigh ((v &&& (0xFFFF ^^^ (1 <<< E))) % 256) = false := by
    intro v
    unfold strobeHigh
    rw [testBit_clearBit8]
    simp
  have hend : strobeHigh (ctrlAfterPulses b2) = false := strobeHigh_ctrlAfterPulses b2
  cases first with
  | write r v => exact absurd rfl (hfirst r v)
  | delay ms =>
    cases h1 : strobeHigh b1 <;>
      simp [strobeWalk, h12, h1, hset, hclr, hend]
  | command c =>
    cases h1 : strobeHigh b1 <;>
      simp [strobeWalk, h12, h1, hset, hclr, hend]
  | character c =>
    cases h1 : strobeHigh b1 <;>
      simp [strobeWalk, h12, h1, hset, hclr, hend]

/-- C14: in the events of `LCD_sendCommand(b)` and of `LCD_displayCharacter(b)`,
for every byte and every prior state, each data-port store happens while E is
high after a store that raised it in this call, and is followed by a store that
lowers E before the next data-port store or the return; there are exactly two
falling edges of E, and E is low on exit. -/
theorem C14_strobe_pulses_around_data (b : Nat) (s : State) :
    (∃ events, (LCD_sendCommand b s).trace = s.trace ++ events ∧
      strobeWalk events false false 0 = some (false, false, 2) ∧
      strobeHigh (LCD_sendCommand b s).PORTB = false) ∧
    (∃ events, (LCD_displayCharacter b s).trace = s.trace ++ events ∧
      strobeWalk events false false 0 = some (false, false, 2) ∧
      strobeHigh (LCD_displayCharacter b s).PORTB = false) := by
  constructor
  · refine ⟨commandEvents b s.PORTA s.PORTB, LCD_sendCommand_trace b s, ?_, ?_⟩
    · exact strobeWalk_transfer (Event.command b) (fun _ _ h => Event.noConfusion h) _ _ _ _
        (by unfold strobeHigh; rw [testBit_clearBit8]; simp [E, PB2, RW, PB1])
    · rw [LCD_sendCommand_PORTB]
      exact strobeHigh_ctrlAfterPulses _
  · refine ⟨characterEvents b s.PORTA s.PORTB, LCD_displayCharacter_trace b s, ?_, ?_⟩
    · exact strobeWalk_transfer (Event.character b) (fun _ _ h => Event.noConfusion h) _ _ _ _
        (by unfold strobeHigh; rw [testBit_clearBit8]; simp [E, PB2, RW, PB1])
    · rw [LCD_displayCharacter_PORTB]
      exact strobeHigh_ctrlAfterPulses _

/-- The walk rejects a data-port store made while the strobe is low, and one
made before the previous store has seen its falling edge. -/
theorem strobeWalk_rejects :
    strobeWalk [Event.write Reg.PORTB 0, Event.write Reg.PORTA 5] false false 0 = none ∧
    strobeWalk [Event.write Reg.PORTB 4, Event.write Reg.PORTA 5, Event.write Reg.PORTA 6]
      false false 0 = none := by
  decide

theorem testBit_240 (i : Nat) : Nat.testBit 240 i = (decide (4 ≤ i) && decide (i < 8)) := by
  by_cases hi : i < 8
  · interval_cases i <;> decide
  · have h : Nat.testBit 240 i = false :=
      Nat.testBit_lt_two_pow (lt_of_lt_of_le (by decide : 240 < 2 ^ 8)
        (Nat.pow_le_pow_right (by norm_num) (by omega)))
    rw [h]
    simp [hi]

theorem testBit_248 (i : Nat) : Nat.testBit 248 i = (decide (3 ≤ i) && decide (i < 8)) := by
  by_cases hi : i < 8
  · interval_cases i <;> decide
  · have h : Nat.testBit 248 i = false :=
      Nat.testBit_lt_two_pow (lt_of_lt_of_le (by decide : 248 < 2 ^ 8)
        (Nat.pow_le_pow_right (by norm_num) (by omega)))
    rw [h]
    simp [hi]

theorem testBit_15 (i : Nat) : Nat.testBit 15 i = decide (i < 4) :=
  Nat.testBit_two_pow_sub_one 4 i

/-- A transfer keeps the upper four bits of the data port. -/
theorem dataAfterTransfer_upper (byte a : Nat) :
    dataAfterTransfer byte a &&& 0xF0 = a &&& 0xF0 := by
  apply Nat.eq_of_testBit_eq
  intro i
  unfold dataAfterTransfer
  simp only [Nat.testBit_and, Nat.testBit_or, show (256 : Nat) = 2 ^ 8 from rfl,
    Nat.testBit_mod_two_pow, Nat.testBit_shiftRight, testBit_240, testBit_15]
  by_cases h4 : 4 ≤ i <;> by_cases h8 : i < 8 <;> simp [h4, h8]
  have h1 : ¬ 4 + i < 8 := by omega
  have h2 : ¬ i < 4 := by omega
  simp [h1, h2]

/-- The strobe pulses keep every control-port bit other than E below bit 8. -/
theorem testBit_ctrlAfterPulses (b2 i : Nat) :
    (ctrlAfterPulses b2).testBit i = (decide (i < 8) && (b2.testBit i && !decide (E = i))) := by
  unfold ctrlAfterPulses
  simp only [testBit_clearBit8, testBit_setBit8]
  by_cases h8 : i < 8 <;> by_cases hE : E = i <;> simp [h8, hE]

theorem ctrl_other_bits_command (b : Nat) :
    ctrlAfterPulses ((((b &&& (0xFFFF ^^^ (1 <<< RS))) % 256)
      &&& (0xFFFF ^^^ (1 <<< RW))) % 256) &&& otherCtrlBits = b &&& otherCtrlBits := by
  apply Nat.eq_of_testBit_eq
  intro i
  simp only [Nat.testBit_and, testBit_ctrlAfterPulses, testBit_clearBit8,
    show otherCtrlBits = 248 from rfl, testBit_248, E, PB2, RS, PB0, RW, PB1]
  by_cases h3 : 3 ≤ i <;> by_cases h8 : i < 8 <;> simp [h3, h8]
  have h0 : ¬ 0 = i := by omega
  have h1 : ¬ 1 = i := by omega
  have h2 : ¬ 2 = i := by omega
  simp [h0, h1, h2]

theorem ctrl_other_bits_character (b : Nat) :
    ctrlAfterPulses ((((b ||| (1 <<< RS)) % 256)
      &&& (0xFFFF ^^^ (1 <<< RW))) % 256) &&& otherCtrlBits = b &&& otherCtrlBits := by
  apply Nat.eq_of_testBit_eq
  intro i
  simp only [Nat.testBit_and, testBit_ctrlAfterPulses, testBit_clearBit8, testBit_setBit8,
    show otherCtrlBits = 248 from rfl, testBit_248, E, PB2, RS, PB0, RW, PB1]
  by_cases h3 : 3 ≤ i <;> by_cases h8 : i < 8 <;> simp [h3, h8]
  have h0 : ¬ 0 = i := by omega
  have h1 : ¬ 1 = i := by omega
  have h2 : ¬ 2 = i := by omega
  simp [h0, h1, h2]

theorem LCD_sendCommand_others (c : Nat) (s : State) :
    (LCD_sendCommand c s).DDRC = s.DDRC ∧ (LCD_sendCommand c s).PORTC = s.PORTC := by
  simp [LCD_sendCommand, logEvent, CLEAR_BIT, SET_BIT, _delay_ms, writeReg,
    readReg, LCD_CTRL_PORT, LCD_DATA_PORT]

theorem LCD_displayCharacter_others (c : Nat) (s : State) :
    (LCD_displayCharacter c s).DDRA = s.DDRA ∧ (LCD_displayCharacter c s).DDRB = s.DDRB ∧
      (LCD_displayCharacter c s).DDRC = s.DDRC ∧ (LCD_displayCharacter c s).PORTC = s.PORTC := by
  simp [LCD_displayCharacter, logEvent, CLEAR_BIT, SET_BIT, _delay_ms, writeReg,
    readReg, LCD_CTRL_PORT, LCD_DATA_PORT]

/-- C17: for every byte `b` and every prior state, after `LCD_sendCommand(b)` and
after `LCD_displayCharacter(b)` the upper four bits of the data port and the
control-port bits other than RS, RW and E have their values from before the
call; the direction registers, the motor port and the variables of `main.c`
are unchanged as well. -/
theorem C17_transfers_change_only_their_lines (b : Nat) (s : State) :
    ((LCD_sendCommand b s).PORTA &&& 0xF0 = s.PORTA &&& 0xF0 ∧
      (LCD_sendCommand b s).PORTB &&& otherCtrlBits = s.PORTB &&& otherCtrlBits ∧
      (LCD_sendCommand b s).DDRA = s.DDRA ∧ (LCD_sendCommand b s).DDRB = s.DDRB ∧
      (LCD_sendCommand b s).DDRC = s.DDRC ∧ (LCD_sendCommand b s).PORTC = s.PORTC ∧
      control (LCD_sendCommand b s) = control s) ∧
    ((LCD_displayCharacter b s).PORTA &&& 0xF0 = s.PORTA &&& 0xF0 ∧
      (LCD_displayCharacter b s).PORTB &&& otherCtrlBits = s.PORTB &&& otherCtrlBits ∧
      (LCD_displayCharacter b s).DDRA = s.DDRA ∧ (LCD_displayCharacter b s).DDRB = s.DDRB ∧
      (LCD_displayCharacter b s).DDRC = s.DDRC ∧ (LCD_displayCharacter b s).PORTC = s.PORTC ∧
      control (LCD_displayCharacter b s) = control s) ∧
    otherCtrlBits = 0xF8 := by
  refine ⟨⟨?_, ?_, LCD_sendCommand_DDRA b s, LCD_sendCommand_DDRB b s,
    (LCD_sendCommand_others b s).1, (LCD_sendCommand_others b s).2,
    LCD_sendCommand_control b s⟩, ⟨?_, ?_, (LCD_displayCharacter_others b s).1,
    (LCD_displayCharacter_others b s).2.1, (LCD_displayCharacter_others b s).2.2.1,
    (LCD_displayCharacter_others b s).2.2.2, LCD_displayCharacter_control b s⟩, rfl⟩
  · rw [LCD_sendCommand_PORTA, dataAfterTransfer_upper]
  · rw [LCD_sendCommand_PORTB, ctrl_other_bits_command]
  · rw [LCD_displayCharacter_PORTA, dataAfterTransfer_upper]
  · rw [LCD_displayCharacter_PORTB, ctrl_other_bits_character]

theorem or_RS_eq_of_testBit (x y : Nat) (h : ∀ i, ¬ 0 = i → x.testBit i = y.testBit i) :
    x ||| (1 <<< RS) = y ||| (1 <<< RS) := by
  apply Nat.eq_of_testBit_eq
  intro i
  rw [Nat.testBit_or, Nat.testBit_or, Nat.one_shiftLeft, Nat.testBit_two_pow]
  by_cases hi : 0 = i
  · simp [RS, PB0, hi]
  · rw [h i hi]

/-- The register stores of the two transfers agree once the register-select bit
is ignored. -/
theorem regWrites_ignoreRS (c a b : Nat) :
    (regWrites (commandEvents c a b)).map ignoreRS
      = (regWrites (characterEvents c a b)).map ignoreRS := by
  simp only [commandEvents, characterEvents, regWrites, List.map, ignoreRS, List.cons.injEq,
    Prod.mk.injEq, true_and, and_true]
  refine ⟨?_, ?_, ?_, ?_, ?_, ?_⟩ <;> apply or_RS_eq_of_testBit <;> intro i hi <;>
    simp only [testBit_setBit8, testBit_clearBit8] <;> simp [RS, PB0, hi]

theorem ctrlWrites_commandEvents_RS (c a b : Nat) :
    ∀ v ∈ ctrlWrites (commandEvents c a b), v.testBit RS = false := by
  intro v hv
  simp only [commandEvents, ctrlWrites, List.mem_cons, List.mem_singleton, List.mem_nil_iff,
    or_false] at hv
  rcases hv with h | h | h | h | h | h <;> rw [h] <;>
    simp only [testBit_setBit8, testBit_clearBit8] <;> simp [RS, PB0, E, PB2, RW, PB1]

theorem ctrlWrites_characterEvents_RS (c a b : Nat) :
    ∀ v ∈ ctrlWrites (characterEvents c a b), v.testBit RS = true := by
  intro v hv
  simp only [characterEvents, ctrlWrites, List.mem_cons, List.mem_singleton, List.mem_nil_iff,
    or_false] at hv
  rcases hv with h | h | h | h | h | h <;> rw [h] <;>
    simp only [testBit_setBit8, testBit_clearBit8] <;> simp [RS, PB0, E, PB2, RW, PB1]

theorem ctrlWrites_commandEvents_RW (c a b : Nat) :
    ∀ v ∈ (ctrlWrites (commandEvents c a b)).drop 1, v.testBit RW = false := by
  intro v hv
  simp only [commandEvents, ctrlWrites, List.drop_succ_cons, List.drop_zero, List.mem_cons,
    List.mem_singleton, List.mem_nil_iff, or_false] at hv
  rcases hv with h | h | h | h | h <;> rw [h] <;>
    simp only [testBit_setBit8, testBit_clearBit8] <;> simp [RS, PB0, E, PB2, RW, PB1]

theorem ctrlWrites_characterEvents_RW (c a b : Nat) :
    ∀ v ∈ (ctrlWrites (characterEvents c a b)).drop 1, v.testBit RW = false := by
  intro v hv
  simp only [characterEvents, ctrlWrites, List.drop_succ_cons, List.drop_zero, List.mem_cons,
    List.mem_singleton, List.mem_nil_iff, or_false] at hv
  rcases hv with h | h | h | h | h <;> rw [h] <;>
    simp only [testBit_setBit8, testBit_clearBit8] <;> simp [RS, PB0, E, PB2, RW, PB1]

/-- C15: for every byte `b` and every prior state, `LCD_sendCommand(b)` and
`LCD_displayCharacter(b)` store to the same registers in the same order, with
the same values up to the register-select bit of the control port.  In the
command transfer every control-port store has RS low, in the character transfer
RS high; in both, every control-port store after the first has RW low.  The
stores to RS and RW are the first two control-port stores, the third one raises
the strobe for the first time in the call, and RS and RW keep their values in
all the stores that follow. -/
theorem C15_command_and_character_differ_in_RS (b : Nat) (s : State) :
    ∃ ce de, (LCD_sendCommand b s).trace = s.trace ++ ce ∧
      (LCD_displayCharacter b s).trace = s.trace ++ de ∧
      (regWrites ce).map ignoreRS = (regWrites de).map ignoreRS ∧
      (regWrites ce).map Prod.fst
        = [Reg.PORTB, Reg.PORTB, Reg.PORTB, Reg.PORTA, Reg.PORTB, Reg.PORTB, Reg.PORTA,
          Reg.PORTB] ∧
      dataWrites ce = dataWrites de ∧
      (∀ v ∈ ctrlWrites ce, v.testBit RS = false) ∧
      (∀ v ∈ ctrlWrites de, v.testBit RS = true) ∧
      (∀ v ∈ (ctrlWrites ce).drop 1, v.testBit RW = false) ∧
      (∀ v ∈ (ctrlWrites de).drop 1, v.testBit RW = false) ∧
      (∃ c1 c2 rest, ctrlWrites ce = c1 :: c2 :: ((c2 ||| (1 <<< E)) % 256) :: rest ∧
        c1 = (s.PORTB &&& (0xFFFF ^^^ (1 <<< RS))) % 256 ∧
        c2 = (c1 &&& (0xFFFF ^^^ (1 <<< RW))) % 256 ∧ rest.length = 3) ∧
      (∃ d1 d2 rest, ctrlWrites de = d1 :: d2 :: ((d2 ||| (1 <<< E)) % 256) :: rest ∧
        d1 = (s.PORTB ||| (1 <<< RS)) % 256 ∧
        d2 = (d1 &&& (0xFFFF ^^^ (1 <<< RW))) % 256 ∧ rest.length = 3) := by
  refine ⟨commandEvents b s.PORTA s.PORTB, characterEvents b s.PORTA s.PORTB,
    LCD_sendCommand_trace b s, LCD_displayCharacter_trace b s, regWrites_ignoreRS b _ _, rfl,
    ?_, ctrlWrites_commandEvents_RS b _ _, ctrlWrites_characterEvents_RS b _ _,
    ctrlWrites_commandEvents_RW b _ _, ctrlWrites_characterEvents_RW b _ _,
    ⟨_, _, _, rfl, rfl, rfl, rfl⟩, ⟨_, _, _, rfl, rfl, rfl, rfl⟩⟩
  rw [dataWrites_commandEvents, dataWrites_characterEvents]

/-! ## C12: reads of the shared flags inside one iteration -/

theorem fireAll_eq (ts : List Toggle) (s : State) :
    fireAll ts s = { s with
      MotorDirection := (flagsAfter ts (s.MotorDirection, s.StepMode)).1,
      StepMode := (flagsAfter ts (s.MotorDirection, s.StepMode)).2 } := by
  induction ts generalizing s with
  | nil => rfl
  | cons t ts ih =>
    show fireAll ts (t.fire s) = _
    rw [ih]
    cases t <;> rfl

theorem flagsAfter_mode (ts : List Toggle) (f : Nat × Nat) (h : Toggle.mode ∉ ts) :
    (flagsAfter ts f).2 = f.2 := by
  induction ts generalizing f with
  | nil => rfl
  | cons t ts ih =>
    show (flagsAfter ts (t.onFlags f)).2 = f.2
    rw [ih _ (fun hm => h (List.mem_cons_of_mem _ hm))]
    cases t with
    | direction => rfl
    | mode => exact absurd (List.mem_cons_self _ _) h

/-- Without interrupts inside the iteration, `loopBodyIrq` is `loopBody`. -/
theorem loopBodyIrq_nil (fuel : Nat) (s : State) :
    loopBodyIrq ⟨[], [], []⟩ fuel s = loopBody fuel s := by
  unfold loopBodyIrq loopBody stepMotor
  simp only [fireAll, List.foldl_nil]
  cases (sequence s).get? s.stepIndex with
  | none => rfl
  | some v =>
    by_cases hd : (writeReg Reg.PORTC v s).MotorDirection = CW
    · simp only [nextStepIndex, hd, if_true, Option.bind]
    · simp only [nextStepIndex, hd, if_false, Option.bind]

theorem fireAll_no_mode (ts : List Toggle) (s : State) (h : Toggle.mode ∉ ts) :
    fireAll ts s = { s with MotorDirection := (fireAll ts s).MotorDirection } := by
  have e := fireAll_eq ts s
  rw [flagsAfter_mode _ _ h] at e
  rw [e]

theorem fireAll_writeReg_direction (ts : List Toggle) (r : Reg) (v : Nat) (s : State) :
    (fireAll ts (writeReg r v s)).MotorDirection = (fireAll ts s).MotorDirection := by
  rw [fireAll_eq, fireAll_eq]
  cases r <;> rfl

theorem fireAll_direction_congr (ts : List Toggle) (s : State) (d : Nat) :
    (fireAll ts { s with MotorDirection := d }).MotorDirection
      = (flagsAfter ts (d, s.StepMode)).1 := by
  rw [fireAll_eq]

/-- An iteration in which no INT1 edge is served between the reads of `StepMode`
and no edge at all after the read of `MotorDirection` on line 154 is the
interrupt-free iteration started with the direction read on line 154. -/
theorem loopBodyIrq_eq_loopBody (irq : MidIrq) (fuel : Nat) (s : State)
    (h1 : Toggle.mode ∉ irq.afterSequence) (h2 : Toggle.mode ∉ irq.afterSteps)
    (h3 : irq.afterTest = []) :
    loopBodyIrq irq fuel s = loopBody fuel { s with
      MotorDirection := (fireAll irq.afterSteps (fireAll irq.afterSequence s)).MotorDirection } := by
  obtain ⟨a, b, c⟩ := irq
  simp only at h1 h2 h3 ⊢
  subst h3
  have ea := fireAll_no_mode a s h1
  generalize (fireAll a s).MotorDirection = d1 at ea
  unfold loopBodyIrq loopBody stepMotor
  simp only [ea]
  have hseq : sequence { s with MotorDirection := d1 } = sequence s := rfl
  cases hget : (sequence s).get? s.stepIndex with
  | none =>
    have hq : ∀ d, (sequence ({ s with MotorDirection := d } : State)).get? s.stepIndex
        = none := fun _ => hget
    simp only [hq, Option.bind]
  | some v =>
    have hq : ∀ d, (sequence ({ s with MotorDirection := d } : State)).get? s.stepIndex
        = some v := fun _ => hget
    have hst : ∀ d, steps ({ s with MotorDirection := d } : State) = steps s := fun _ => rfl
    have eb := fireAll_no_mode b (writeReg Reg.PORTC v { s with MotorDirection := d1 }) h2
    rw [fireAll_writeReg_direction] at eb
    generalize (fireAll b { s with MotorDirection := d1 }).MotorDirection = d2 at eb ⊢
    have hnil : ∀ t : State, fireAll [] t = t := fun _ => rfl
    simp only [hq, hst, eb, hnil]
    by_cases hd : d2 = CW
    · simp only [nextStepIndex, writeReg, hd, if_true, Option.bind]
    · simp only [nextStepIndex, writeReg, hd, if_false, Option.bind]

theorem fireAll_motorView (ts : List Toggle) (s : State) :
    (fireAll ts s).stepIndex = s.stepIndex ∧ (fireAll ts s).PORTC = s.PORTC ∧
      (fireAll ts s).trace = s.trace := by
  rw [fireAll_eq]
  exact ⟨rfl, rfl, rfl⟩

/-- With fuel for the delay and the table read in bounds, an iteration with
interrupts inside returns; it has written the entry of the table selected on
line 149 and moved the index with the length read on line 150 and the direction
read on line 154. -/
theorem loopBodyIrq_step (irq : MidIrq) (fuel : Nat) (s : State) (v : Nat)
    (hfuel : 1954 ≤ fuel) (h : (sequence s).get? s.stepIndex = some v) :
    ∃ s2, loopBodyIrq irq fuel s = some s2 ∧ s2.PORTC = v % 256 ∧
      s2.stepIndex = nextStepIndex
        (fireAll irq.afterSteps (fireAll irq.afterSequence s)).MotorDirection
        (steps (fireAll irq.afterSequence s)) s.stepIndex ∧
      motorWrites s2.trace = motorWrites s.trace ++ [v % 256] := by
  obtain ⟨a, b, c⟩ := irq
  have hidx : (fireAll a s).stepIndex = s.stepIndex := (fireAll_motorView a s).1
  have hget : (sequence s).get? (fireAll a s).stepIndex = some v := by rw [hidx]; exact h
  obtain ⟨A, hA⟩ := updateLCD_returns
    (fireAll c { fireAll b (writeReg Reg.PORTC v (fireAll a s)) with
      stepIndex := nextStepIndex (fireAll b (writeReg Reg.PORTC v (fireAll a s))).MotorDirection
        (steps (fireAll a s))
        (fireAll b (writeReg Reg.PORTC v (fireAll a s))).stepIndex }).MotorDirection
    (fireAll c { fireAll b (writeReg Reg.PORTC v (fireAll a s)) with
      stepIndex := nextStepIndex (fireAll b (writeReg Reg.PORTC v (fireAll a s))).MotorDirection
        (steps (fireAll a s))
        (fireAll b (writeReg Reg.PORTC v (fireAll a s))).stepIndex }).StepMode
    fuel
    (fireAll c { fireAll b (writeReg Reg.PORTC v (fireAll a s)) with
      stepIndex := nextStepIndex (fireAll b (writeReg Reg.PORTC v (fireAll a s))).MotorDirection
        (steps (fireAll a s))
        (fireAll b (writeReg Reg.PORTC v (fireAll a s))).stepIndex })
    (by omega)
  have hD := delay_ms_eq 500 fuel A (by rw [delay_ms_ticks_500]; omega)
  have hl : loopBodyIrq ⟨a, b, c⟩ fuel s = some { A with timer0_ticks := delay_ms_ticks 500 } := by
    unfold loopBodyIrq
    simp only [hget, hA, Option.bind, hD]
  have hv := (updateLCD_some _ _ _ _ _ hA).1
  simp only [motorView, Prod.mk.injEq] at hv
  obtain ⟨_, _, hi, hp, hw⟩ := hv
  refine ⟨_, hl, ?_, ?_, ?_⟩
  · show A.PORTC = _
    rw [hp, (fireAll_motorView c _).2.1]
    show (fireAll b (writeReg Reg.PORTC v (fireAll a s))).PORTC = _
    rw [(fireAll_motorView b _).2.1]
    rfl
  · show A.stepIndex = _
    rw [hi, (fireAll_motorView c _).1]
    show nextStepIndex (fireAll b (writeReg Reg.PORTC v (fireAll a s))).MotorDirection
      (steps (fireAll a s)) (fireAll b (writeReg Reg.PORTC v (fireAll a s))).stepIndex = _
    rw [fireAll_writeReg_direction, (fireAll_motorView b _).1]
    show nextStepIndex _ _ (fireAll a s).stepIndex = _
    rw [hidx]
  · show motorWrites A.trace = _
    rw [hw, (fireAll_motorView c _).2.2]
    show motorWrites (fireAll b (writeReg Reg.PORTC v (fireAll a s))).trace = _
    rw [(fireAll_motorView b _).2.2]
    show motorWrites ((fireAll a s).trace ++ [Event.write Reg.PORTC (v % 256)]) = _
    rw [(fireAll_motorView a s).2.2, motorWrites_append]
    rfl

/-- C12 fails as stated: after three iterations from `startup` (Full, clockwise,
index 3), an INT1 edge served between the reads of `StepMode` on lines 149 and
150 makes the three reads of `StepMode` return 0, 1, 1.  The iteration writes 9,
the entry at index 3 of the full-step table (the half-step entry is 2), and
leaves index 4, the successor of 3 modulo the half-step length 8 (modulo 4 it
would be 0): table and length come from different values of `StepMode`. -/
theorem C12_mode_toggle_between_reads :
    ∃ s s2, runLoop 2000 3 startup = some s ∧
      s.StepMode = 0 ∧ s.MotorDirection = CW ∧ s.stepIndex = 3 ∧
      flagReads ⟨[Toggle.mode], [], []⟩ s = ((0, 1, 1), (CW, CW)) ∧
      loopBodyIrq ⟨[Toggle.mode], [], []⟩ 2000 s = some s2 ∧
      s2.PORTC = 9 ∧ FULL_WAVE_motor_steps.get? 3 = some 9 ∧
      HALF_WAVE_motor_steps.get? 3 = some 2 ∧
      s2.stepIndex = 4 ∧ nextStepIndex CW FULL_WAVE_STEPS 3 = 0 ∧
      nextStepIndex CW HALF_WAVE_STEPS 3 = 4 := by
  have h0 := startup_motorView
  simp only [motorView, Prod.mk.injEq] at h0
  obtain ⟨hd0, hm0, hi0, _, _⟩ := h0
  have hs0 : steps startup = 4 := by simp [steps, hm0, FULL_WAVE_STEPS]
  obtain ⟨s, hrun, hd, hm, hi, _⟩ := runLoop_CW 2000 3 startup (by decide) hd0
    (by rw [hs0, hi0]; decide)
  rw [hm0] at hm
  rw [hs0, hi0] at hi
  have hi3 : s.stepIndex = 3 := hi
  have hseq : sequence s = FULL_WAVE_motor_steps := by simp [sequence, hm]
  have hget : (sequence s).get? s.stepIndex = some 9 := by rw [hseq, hi3]; rfl
  obtain ⟨s2, h2, hp, hidx, _⟩ := loopBodyIrq_step ⟨[Toggle.mode], [], []⟩ 2000 s 9 (by decide)
    hget
  have hfm : (fireAll [Toggle.mode] s).StepMode = 1 := by
    show (if s.StepMode = 0 then 1 else 0) = 1
    rw [hm]
    rfl
  have hfd : (fireAll [] (fireAll [Toggle.mode] s)).MotorDirection = CW := hd
  have hst : steps (fireAll [Toggle.mode] s) = 8 := by simp [steps, hfm, HALF_WAVE_STEPS]
  refine ⟨s, s2, hrun, hm, hd, hi3, ?_, h2, hp, rfl, rfl, ?_, by decide, by decide⟩
  · show ((s.StepMode, (fireAll [Toggle.mode] s).StepMode, (fireAll [Toggle.mode] s).StepMode),
      (s.MotorDirection, s.MotorDirection)) = _
    rw [hm, hfm, hd]
  · have hidx2 : s2.stepIndex = nextStepIndex
        (fireAll [] (fireAll [Toggle.mode] s)).MotorDirection
        (steps (fireAll [Toggle.mode] s)) s.stepIndex := hidx
    rw [hidx2, hfd, hst, hi3]
    decide

/-- C12, amended: the iteration reads `StepMode` three times (lines 149, 150,
160) and `MotorDirection` twice (lines 154, 160).  When no INT1 edge is served
between the first and the last read of `StepMode` and no INT0 edge between the
two reads of `MotorDirection`, each flag is read with one value throughout, and
the iteration is the interrupt-free iteration on that pair of values: table,
length, direction test and the pair passed to `updateLCD` all derive from it. -/
theorem C12_one_value_without_toggle_between_reads (irq : MidIrq) (fuel : Nat) (s : State)
    (h1 : Toggle.mode ∉ irq.afterSequence) (h2 : Toggle.mode ∉ irq.afterSteps)
    (h3 : irq.afterTest = []) :
    ∃ d, flagReads irq s = ((s.StepMode, s.StepMode, s.StepMode), (d, d)) ∧
      loopBodyIrq irq fuel s = loopBody fuel { s with MotorDirection := d } ∧
      loopBodyIrq ⟨[], [], []⟩ fuel s = loopBody fuel s := by
  refine ⟨(fireAll irq.afterSteps (fireAll irq.afterSequence s)).MotorDirection, ?_,
    loopBodyIrq_eq_loopBody irq fuel s h1 h2 h3, loopBodyIrq_nil fuel s⟩
  obtain ⟨a, b, c⟩ := irq
  simp only at h1 h2 h3 ⊢
  subst h3
  have ma : (fireAll a s).StepMode = s.StepMode := by
    rw [fireAll_eq]
    exact flagsAfter_mode a _ h1
  have mb : (fireAll b (fireAll a s)).StepMode = s.StepMode := by
    rw [fireAll_eq b]
    exact (flagsAfter_mode b _ h2).trans ma
  show ((s.StepMode, (fireAll a s).StepMode, (fireAll b (fireAll a s)).StepMode),
    ((fireAll b (fireAll a s)).MotorDirection, (fireAll b (fireAll a s)).MotorDirection)) = _
  rw [ma, mb]

/-- C12 amended, at `startup` with an INT0 edge served between lines 149 and 150. -/
theorem C12_one_value_without_toggle_between_reads_witness :
    ∃ d, flagReads ⟨[Toggle.direction], [], []⟩ startup
        = ((startup.StepMode, startup.StepMode, startup.StepMode), (d, d)) ∧
      loopBodyIrq ⟨[Toggle.direction], [], []⟩ 2000 startup
        = loopBody 2000 { startup with MotorDirection := d } ∧
      loopBodyIrq ⟨[], [], []⟩ 2000 startup = loopBody 2000 startup :=
  C12_one_value_without_toggle_between_reads ⟨[Toggle.direction], [], []⟩ 2000 startup
    (by decide) (by decide) rfl

end Stepper
